import Mathlib

/-!
Shallow embedding of the win-probability analysis of the
`skill-expression-game-analysis` repository.

The repository contains two variants of a simplified blackjack game:

* `one_player_blackjack` (`blackjack.py`, `win_probability_analysis.py`):
  the player hits/stays, then the dealer draws until a fixed limit.
* `two_player_blackjack` (`blackjack.py`, `win_probability_analysis.py`):
  both the player and the dealer choose between hit and stay.

Cards are plain integers; hands and decks are integer lists; turn is an
integer counter (0 = player, 1 = dealer, and in the two-player variant 2 =
dealer has stayed).  Probabilities are modelled by `ℚ`.

The Python solvers (`get_theoretical_win_probability`,
`get_ai_win_probability`) recurse on game states; each recursive call
either removes one card from the deck or advances the turn counter.  The
embedding makes the call stack explicit with a fuel parameter; the
`..._value...` wrappers run the recursion with fuel
`deck.length + 2` (one-player) resp. `deck.length + 3` (two-player),
which is proved sufficient below (fuel-invariance lemmas).
-/

/-- A game state: the `deck`, `dealer_hand`, `player_hand` and `turn`
attributes of the Python `BlackJack` class. -/
structure GameState where
  dealer_hand : List Nat
  player_hand : List Nat
  deck : List Nat
  turn : Nat
deriving Repr, DecidableEq

/-- Static configuration of the one-player game: `deck_copy`,
`blackjack_num` and `dealer_limit` from `one_player_blackjack/blackjack.py`. -/
structure Config1 where
  deck_copy : List Nat
  blackjack_num : Nat
  dealer_limit : Nat
deriving Repr, DecidableEq

/-- Static configuration of the two-player game: `deck_copy` and
`blackjack_num` from `two_player_blackjack/blackjack.py` (no dealer limit). -/
structure Config2 where
  deck_copy : List Nat
  blackjack_num : Nat
deriving Repr, DecidableEq

/-- `np.unique` of a list of cards: the distinct values in ascending order. -/
def np_unique (l : List Nat) : List Nat :=
  (l.dedup).insertionSort (· ≤ ·)

/-- `draw_prob(game, card)` from `win_probability_analysis.py` (both
variants): `game.deck.count(card) / len(game.deck)`. -/
def draw_prob (s : GameState) (card : Nat) : ℚ :=
  (s.deck.count card : ℚ) / (s.deck.length : ℚ)

/-- `get_game_state_representation(game_state)` (identical in both
variants): `(sum(dealer_hand), sum(player_hand), tuple(sorted(deck)), turn)`.
Python `sorted` is modelled by `insertionSort (· ≤ ·)`. -/
def get_game_state_representation (s : GameState) : Nat × Nat × List Nat × Nat :=
  (s.dealer_hand.sum, s.player_hand.sum, s.deck.insertionSort (· ≤ ·), s.turn)

/-- The state obtained by a "stay" in the solvers: a copy whose `turn` is
incremented (`game_state.copy(); turn += 1`). -/
def stay_state (s : GameState) : GameState :=
  { s with turn := s.turn + 1 }

/-- The state obtained when the player hits `card`: a copy with `card`
appended to `player_hand` and the first occurrence of `card` removed from
the deck (`player_hand.append(card); deck.remove(card)`). -/
def player_hit_state (s : GameState) (card : Nat) : GameState :=
  { s with player_hand := s.player_hand ++ [card], deck := s.deck.erase card }

/-- The state obtained when the dealer hits `card`: a copy with `card`
appended to `dealer_hand` and the first occurrence of `card` removed from
the deck (`dealer_hand.append(card); deck.remove(card)`). -/
def dealer_hit_state (s : GameState) (card : Nat) : GameState :=
  { s with dealer_hand := s.dealer_hand ++ [card], deck := s.deck.erase card }

/-- `is_game_over` of `one_player_blackjack/blackjack.py`.  Returns the
pair `(game_over, result)`; the Python `None` result is `none`. -/
def is_game_over1 (cfg : Config1) (s : GameState) : Bool × Option ℚ :=
  if s.turn = 0 ∧ s.player_hand.sum > cfg.blackjack_num then (true, some 0)
  else if s.turn = 1 then
    if s.dealer_hand.sum > cfg.blackjack_num then (true, some 1)
    else if s.dealer_hand.sum ≥ cfg.dealer_limit then
      if s.player_hand.sum > s.dealer_hand.sum then (true, some 1)
      else if s.player_hand.sum < s.dealer_hand.sum then (true, some 0)
      else (true, some 0)
    else (false, none)
  else (false, none)

/-- `is_game_over` of `two_player_blackjack/blackjack.py`. -/
def is_game_over2 (cfg : Config2) (s : GameState) : Bool × Option ℚ :=
  if s.turn = 0 ∧ s.player_hand.sum > cfg.blackjack_num then (true, some 0)
  else if s.turn = 1 ∧ s.dealer_hand.sum > cfg.blackjack_num then (true, some 1)
  else if s.turn = 2 then
    if s.player_hand.sum > s.dealer_hand.sum then (true, some 1)
    else if s.player_hand.sum < s.dealer_hand.sum then (true, some 0)
    else (true, some 0)
  else (false, none)

/-- `get_features` of `one_player_blackjack/blackjack.py`:
`[dealer_sum/blackjack_num, player_sum/blackjack_num] ++
[deck.count(card)/len(deck) for card in np.unique(deck_copy)]`. -/
def get_features1 (cfg : Config1) (s : GameState) : List ℚ :=
  ((s.dealer_hand.sum : ℚ) / (cfg.blackjack_num : ℚ)) ::
  ((s.player_hand.sum : ℚ) / (cfg.blackjack_num : ℚ)) ::
  ((np_unique cfg.deck_copy).map fun card =>
    (s.deck.count card : ℚ) / (s.deck.length : ℚ))

/-- `get_features` of `two_player_blackjack/blackjack.py` (same formula). -/
def get_features2 (cfg : Config2) (s : GameState) : List ℚ :=
  ((s.dealer_hand.sum : ℚ) / (cfg.blackjack_num : ℚ)) ::
  ((s.player_hand.sum : ℚ) / (cfg.blackjack_num : ℚ)) ::
  ((np_unique cfg.deck_copy).map fun card =>
    (s.deck.count card : ℚ) / (s.deck.length : ℚ))

/-- `get_theoretical_win_probability(game_state, record)` of
`one_player_blackjack/win_probability_analysis.py`, with the Python call
stack made explicit as fuel.  Returns the pair
`(optimal_win_probability, random_win_probability)`.  The memoization
`record` is a pure caching optimisation and is not modelled. -/
def get_theoretical_win_probability1 (cfg : Config1) : Nat → GameState → ℚ × ℚ
  | 0, _ => (0, 0)
  | fuel+1, s =>
    if (is_game_over1 cfg s).1 then
      ((is_game_over1 cfg s).2.getD 0, (is_game_over1 cfg s).2.getD 0)
    else if s.turn = 1 then
      ( ((np_unique s.deck).map fun card =>
          draw_prob s card *
            (get_theoretical_win_probability1 cfg fuel (dealer_hit_state s card)).1).sum,
        ((np_unique s.deck).map fun card =>
          draw_prob s card *
            (get_theoretical_win_probability1 cfg fuel (dealer_hit_state s card)).2).sum )
    else
      ( max (get_theoretical_win_probability1 cfg fuel (stay_state s)).1
          (((np_unique s.deck).map fun card =>
            draw_prob s card *
              (get_theoretical_win_probability1 cfg fuel (player_hit_state s card)).1).sum),
        1/2 * (get_theoretical_win_probability1 cfg fuel (stay_state s)).2
          + 1/2 * (((np_unique s.deck).map fun card =>
              draw_prob s card *
                (get_theoretical_win_probability1 cfg fuel (player_hit_state s card)).2).sum) )

/-- One-player analytical solver run with sufficient fuel
(`deck.length + 2`; proved sufficient by the fuel-invariance lemma). -/
def theoretical_value1 (cfg : Config1) (s : GameState) : ℚ × ℚ :=
  get_theoretical_win_probability1 cfg (s.deck.length + 2) s

/-- `get_ai_win_probability(agent, game_state, record)` of
`one_player_blackjack/win_probability_analysis.py`.  The decision oracle
`agent` models `agent.get_argmax_action_index`, queried on
`game_state.get_features()`. -/
def get_ai_win_probability1 (cfg : Config1) (agent : List ℚ → Nat) :
    Nat → GameState → ℚ
  | 0, _ => 0
  | fuel+1, s =>
    if (is_game_over1 cfg s).1 then (is_game_over1 cfg s).2.getD 0
    else if s.turn = 1 then
      ((np_unique s.deck).map fun card =>
        draw_prob s card *
          get_ai_win_probability1 cfg agent fuel (dealer_hit_state s card)).sum
    else
      if agent (get_features1 cfg s) = 0 then
        get_ai_win_probability1 cfg agent fuel (stay_state s)
      else
        ((np_unique s.deck).map fun card =>
          draw_prob s card *
            get_ai_win_probability1 cfg agent fuel (player_hit_state s card)).sum

/-- One-player policy-driven solver run with sufficient fuel. -/
def ai_value1 (cfg : Config1) (agent : List ℚ → Nat) (s : GameState) : ℚ :=
  get_ai_win_probability1 cfg agent (s.deck.length + 2) s

/-- `get_theoretical_win_probability(game_state, record)` of
`two_player_blackjack/win_probability_analysis.py`.  Returns the tuple
`(opod, oprd, rpod, rprd)`: optimal/random player vs optimal/random
dealer win probabilities, in the source return order. -/
def get_theoretical_win_probability2 (cfg : Config2) : Nat → GameState → ℚ × ℚ × ℚ × ℚ
  | 0, _ => (0, 0, 0, 0)
  | fuel+1, s =>
    if (is_game_over2 cfg s).1 then
      ((is_game_over2 cfg s).2.getD 0, (is_game_over2 cfg s).2.getD 0,
       (is_game_over2 cfg s).2.getD 0, (is_game_over2 cfg s).2.getD 0)
    else if s.turn = 1 then
      ( min (get_theoretical_win_probability2 cfg fuel (stay_state s)).1
          (((np_unique s.deck).map fun card =>
            draw_prob s card *
              (get_theoretical_win_probability2 cfg fuel (dealer_hit_state s card)).1).sum),
        1/2 * (get_theoretical_win_probability2 cfg fuel (stay_state s)).2.1
          + 1/2 * (((np_unique s.deck).map fun card =>
              draw_prob s card *
                (get_theoretical_win_probability2 cfg fuel (dealer_hit_state s card)).2.1).sum),
        min (get_theoretical_win_probability2 cfg fuel (stay_state s)).2.2.1
          (((np_unique s.deck).map fun card =>
            draw_prob s card *
              (get_theoretical_win_probability2 cfg fuel (dealer_hit_state s card)).2.2.1).sum),
        1/2 * (get_theoretical_win_probability2 cfg fuel (stay_state s)).2.2.2
          + 1/2 * (((np_unique s.deck).map fun card =>
              draw_prob s card *
                (get_theoretical_win_probability2 cfg fuel (dealer_hit_state s card)).2.2.2).sum) )
    else
      ( max (get_theoretical_win_probability2 cfg fuel (stay_state s)).1
          (((np_unique s.deck).map fun card =>
            draw_prob s card *
              (get_theoretical_win_probability2 cfg fuel (player_hit_state s card)).1).sum),
        max (get_theoretical_win_probability2 cfg fuel (stay_state s)).2.1
          (((np_unique s.deck).map fun card =>
            draw_prob s card *
              (get_theoretical_win_probability2 cfg fuel (player_hit_state s card)).2.1).sum),
        1/2 * (get_theoretical_win_probability2 cfg fuel (stay_state s)).2.2.1
          + 1/2 * (((np_unique s.deck).map fun card =>
              draw_prob s card *
                (get_theoretical_win_probability2 cfg fuel (player_hit_state s card)).2.2.1).sum),
        1/2 * (get_theoretical_win_probability2 cfg fuel (stay_state s)).2.2.2
          + 1/2 * (((np_unique s.deck).map fun card =>
              draw_prob s card *
                (get_theoretical_win_probability2 cfg fuel (player_hit_state s card)).2.2.2).sum) )

/-- Two-player analytical solver run with sufficient fuel
(`deck.length + 3`). -/
def theoretical_value2 (cfg : Config2) (s : GameState) : ℚ × ℚ × ℚ × ℚ :=
  get_theoretical_win_probability2 cfg (s.deck.length + 3) s

/-- `get_ai_win_probability(player_agent, dealer_agent, game_state, record)`
of `two_player_blackjack/win_probability_analysis.py`.  Returns the tuple
`(apad, aprd, rpad)`: AI player vs AI dealer, AI player vs random dealer,
random player vs AI dealer. -/
def get_ai_win_probability2 (cfg : Config2)
    (player_agent dealer_agent : List ℚ → Nat) : Nat → GameState → ℚ × ℚ × ℚ
  | 0, _ => (0, 0, 0)
  | fuel+1, s =>
    if (is_game_over2 cfg s).1 then
      ((is_game_over2 cfg s).2.getD 0, (is_game_over2 cfg s).2.getD 0,
       (is_game_over2 cfg s).2.getD 0)
    else if s.turn = 1 then
      ( (if dealer_agent (get_features2 cfg s) = 0 then
          (get_ai_win_probability2 cfg player_agent dealer_agent fuel (stay_state s)).1
        else
          ((np_unique s.deck).map fun card =>
            draw_prob s card *
              (get_ai_win_probability2 cfg player_agent dealer_agent fuel
                (dealer_hit_state s card)).1).sum),
        1/2 * (get_ai_win_probability2 cfg player_agent dealer_agent fuel (stay_state s)).2.1
          + 1/2 * (((np_unique s.deck).map fun card =>
              draw_prob s card *
                (get_ai_win_probability2 cfg player_agent dealer_agent fuel
                  (dealer_hit_state s card)).2.1).sum),
        (if dealer_agent (get_features2 cfg s) = 0 then
          (get_ai_win_probability2 cfg player_agent dealer_agent fuel (stay_state s)).2.2
        else
          ((np_unique s.deck).map fun card =>
            draw_prob s card *
              (get_ai_win_probability2 cfg player_agent dealer_agent fuel
                (dealer_hit_state s card)).2.2).sum) )
    else
      ( (if player_agent (get_features2 cfg s) = 0 then
          (get_ai_win_probability2 cfg player_agent dealer_agent fuel (stay_state s)).1
        else
          ((np_unique s.deck).map fun card =>
            draw_prob s card *
              (get_ai_win_probability2 cfg player_agent dealer_agent fuel
                (player_hit_state s card)).1).sum),
        (if player_agent (get_features2 cfg s) = 0 then
          (get_ai_win_probability2 cfg player_agent dealer_agent fuel (stay_state s)).2.1
        else
          ((np_unique s.deck).map fun card =>
            draw_prob s card *
              (get_ai_win_probability2 cfg player_agent dealer_agent fuel
                (player_hit_state s card)).2.1).sum),
        1/2 * (get_ai_win_probability2 cfg player_agent dealer_agent fuel (stay_state s)).2.2
          + 1/2 * (((np_unique s.deck).map fun card =>
              draw_prob s card *
                (get_ai_win_probability2 cfg player_agent dealer_agent fuel
                  (player_hit_state s card)).2.2).sum) )

/-- Two-player policy-driven solver run with sufficient fuel. -/
def ai_value2 (cfg : Config2) (player_agent dealer_agent : List ℚ → Nat)
    (s : GameState) : ℚ × ℚ × ℚ :=
  get_ai_win_probability2 cfg player_agent dealer_agent (s.deck.length + 3) s

/-! ### Basic facts about `np_unique` and deck lengths -/

lemma mem_np_unique {l : List Nat} {c : Nat} : c ∈ np_unique l ↔ c ∈ l := by
  unfold np_unique
  rw [(List.perm_insertionSort _ _).mem_iff, List.mem_dedup]

lemma np_unique_perm_dedup (l : List Nat) : (np_unique l).Perm l.dedup :=
  List.perm_insertionSort _ _

lemma np_unique_eq_of_perm {l1 l2 : List Nat} (h : l1.Perm l2) :
    np_unique l1 = np_unique l2 :=
  List.eq_of_perm_of_sorted
    ((np_unique_perm_dedup l1).trans (h.dedup.trans (np_unique_perm_dedup l2).symm))
    (List.sorted_insertionSort _ _) (List.sorted_insertionSort _ _)

lemma erase_length_of_mem_np_unique {d : List Nat} {c : Nat}
    (h : c ∈ np_unique d) : (d.erase c).length + 1 = d.length := by
  have hc : c ∈ d := mem_np_unique.mp h
  have h1 := List.length_erase_of_mem hc
  have h2 : 0 < d.length := List.length_pos.mpr (List.ne_nil_of_mem hc)
  omega

/-! ### Fuel invariance -/

lemma fuel_invariant_th1 (cfg : Config1) :
    ∀ (n f g : Nat) (s : GameState), s.turn ≤ 1 →
      s.deck.length + 2 - s.turn ≤ n →
      s.deck.length + 2 - s.turn ≤ f →
      s.deck.length + 2 - s.turn ≤ g →
      get_theoretical_win_probability1 cfg f s
        = get_theoretical_win_probability1 cfg g s := by
  intro n
  induction n with
  | zero => intro f g s ht hn hf hg; omega
  | succ n ih =>
    intro f g s ht hn hf hg
    obtain ⟨f', rfl⟩ : ∃ f', f = f' + 1 := ⟨f - 1, by omega⟩
    obtain ⟨g', rfl⟩ : ∃ g', g = g' + 1 := ⟨g - 1, by omega⟩
    simp only [get_theoretical_win_probability1]
    by_cases hgo : (is_game_over1 cfg s).1
    · simp [hgo]
    · simp only [hgo, Bool.false_eq_true, if_false]
      by_cases h1 : s.turn = 1
      · simp only [h1, if_true]
        have hcong : ∀ c ∈ np_unique s.deck,
            get_theoretical_win_probability1 cfg f' (dealer_hit_state s c)
              = get_theoretical_win_probability1 cfg g' (dealer_hit_state s c) := by
          intro c hc
          have hlen := erase_length_of_mem_np_unique hc
          exact ih f' g' _ (by simp [dealer_hit_state, h1])
            (by simp [dealer_hit_state, h1]; omega)
            (by simp [dealer_hit_state, h1]; omega)
            (by simp [dealer_hit_state, h1]; omega)
        simp only [Prod.mk.injEq]
        constructor
        · exact congrArg List.sum (List.map_congr_left fun c hc => by rw [hcong c hc])
        · exact congrArg List.sum (List.map_congr_left fun c hc => by rw [hcong c hc])
      · simp only [h1, if_false]
        have h0 : s.turn = 0 := by omega
        have hstay : get_theoretical_win_probability1 cfg f' (stay_state s)
            = get_theoretical_win_probability1 cfg g' (stay_state s) := by
          exact ih f' g' _ (by simp [stay_state, h0])
            (by simp [stay_state, h0]; omega)
            (by simp [stay_state, h0]; omega)
            (by simp [stay_state, h0]; omega)
        have hcong : ∀ c ∈ np_unique s.deck,
            get_theoretical_win_probability1 cfg f' (player_hit_state s c)
              = get_theoretical_win_probability1 cfg g' (player_hit_state s c) := by
          intro c hc
          have hlen := erase_length_of_mem_np_unique hc
          exact ih f' g' _ (by simp [player_hit_state, h0])
            (by simp [player_hit_state, h0]; omega)
            (by simp [player_hit_state, h0]; omega)
            (by simp [player_hit_state, h0]; omega)
        rw [hstay]
        simp only [Prod.mk.injEq]
        constructor
        · rw [List.map_congr_left fun c hc => by rw [hcong c hc]]
        · rw [List.map_congr_left fun c hc => by rw [hcong c hc]]

lemma is_game_over2_turn2 (cfg : Config2) (s : GameState) (h : s.turn = 2) :
    (is_game_over2 cfg s).1 = true := by
  simp only [is_game_over2, h]
  norm_num
  split_ifs <;> rfl

lemma fuel_invariant_ai1 (cfg : Config1) (agent : List ℚ → Nat) :
    ∀ (n f g : Nat) (s : GameState), s.turn ≤ 1 →
      s.deck.length + 2 - s.turn ≤ n →
      s.deck.length + 2 - s.turn ≤ f →
      s.deck.length + 2 - s.turn ≤ g →
      get_ai_win_probability1 cfg agent f s
        = get_ai_win_probability1 cfg agent g s := by
  intro n
  induction n with
  | zero => intro f g s ht hn hf hg; omega
  | succ n ih =>
    intro f g s ht hn hf hg
    obtain ⟨f', rfl⟩ : ∃ f', f = f' + 1 := ⟨f - 1, by omega⟩
    obtain ⟨g', rfl⟩ : ∃ g', g = g' + 1 := ⟨g - 1, by omega⟩
    simp only [get_ai_win_probability1]
    by_cases hgo : (is_game_over1 cfg s).1
    · simp [hgo]
    · simp only [hgo, Bool.false_eq_true, if_false]
      by_cases h1 : s.turn = 1
      · simp only [h1, if_true]
        refine congrArg List.sum (List.map_congr_left fun c hc => ?_)
        have hlen := erase_length_of_mem_np_unique hc
        rw [ih f' g' _ (by simp [dealer_hit_state, h1])
          (by simp [dealer_hit_state, h1]; omega)
          (by simp [dealer_hit_state, h1]; omega)
          (by simp [dealer_hit_state, h1]; omega)]
      · simp only [h1, if_false]
        have h0 : s.turn = 0 := by omega
        by_cases ha : agent (get_features1 cfg s) = 0
        · simp only [ha, if_true]
          exact ih f' g' _ (by simp [stay_state, h0])
            (by simp [stay_state, h0]; omega)
            (by simp [stay_state, h0]; omega)
            (by simp [stay_state, h0]; omega)
        · simp only [ha, if_false]
          refine congrArg List.sum (List.map_congr_left fun c hc => ?_)
          have hlen := erase_length_of_mem_np_unique hc
          rw [ih f' g' _ (by simp [player_hit_state, h0])
            (by simp [player_hit_state, h0]; omega)
            (by simp [player_hit_state, h0]; omega)
            (by simp [player_hit_state, h0]; omega)]

lemma fuel_invariant_th2 (cfg : Config2) :
    ∀ (n f g : Nat) (s : GameState), s.turn ≤ 2 →
      s.deck.length + 3 - s.turn ≤ n →
      s.deck.length + 3 - s.turn ≤ f →
      s.deck.length + 3 - s.turn ≤ g →
      get_theoretical_win_probability2 cfg f s
        = get_theoretical_win_probability2 cfg g s := by
  intro n
  induction n with
  | zero => intro f g s ht hn hf hg; omega
  | succ n ih =>
    intro f g s ht hn hf hg
    obtain ⟨f', rfl⟩ : ∃ f', f = f' + 1 := ⟨f - 1, by omega⟩
    obtain ⟨g', rfl⟩ : ∃ g', g = g' + 1 := ⟨g - 1, by omega⟩
    simp only [get_theoretical_win_probability2]
    by_cases hgo : (is_game_over2 cfg s).1
    · simp [hgo]
    · simp only [hgo, Bool.false_eq_true, if_false]
      have h2 : s.turn ≠ 2 := fun h => by
        rw [is_game_over2_turn2 cfg s h] at hgo; exact hgo rfl
      by_cases h1 : s.turn = 1
      · simp only [h1, if_true]
        have hstay : get_theoretical_win_probability2 cfg f' (stay_state s)
            = get_theoretical_win_probability2 cfg g' (stay_state s) := by
          exact ih f' g' _ (by simp [stay_state, h1])
            (by simp [stay_state, h1]; omega)
            (by simp [stay_state, h1]; omega)
            (by simp [stay_state, h1]; omega)
        have hcong : ∀ c ∈ np_unique s.deck,
            get_theoretical_win_probability2 cfg f' (dealer_hit_state s c)
              = get_theoretical_win_probability2 cfg g' (dealer_hit_state s c) := by
          intro c hc
          have hlen := erase_length_of_mem_np_unique hc
          exact ih f' g' _ (by simp [dealer_hit_state, h1])
            (by simp [dealer_hit_state, h1]; omega)
            (by simp [dealer_hit_state, h1]; omega)
            (by simp [dealer_hit_state, h1]; omega)
        rw [hstay]
        simp only [Prod.mk.injEq]
        refine ⟨?_, ?_, ?_, ?_⟩ <;>
          rw [List.map_congr_left fun c hc => by rw [hcong c hc]]
      · simp only [h1, if_false]
        have h0 : s.turn = 0 := by omega
        have hstay : get_theoretical_win_probability2 cfg f' (stay_state s)
            = get_theoretical_win_probability2 cfg g' (stay_state s) := by
          exact ih f' g' _ (by simp [stay_state, h0])
            (by simp [stay_state, h0]; omega)
            (by simp [stay_state, h0]; omega)
            (by simp [stay_state, h0]; omega)
        have hcong : ∀ c ∈ np_unique s.deck,
            get_theoretical_win_probability2 cfg f' (player_hit_state s c)
              = get_theoretical_win_probability2 cfg g' (player_hit_state s c) := by
          intro c hc
          have hlen := erase_length_of_mem_np_unique hc
          exact ih f' g' _ (by simp [player_hit_state, h0])
            (by simp [player_hit_state, h0]; omega)
            (by simp [player_hit_state, h0]; omega)
            (by simp [player_hit_state, h0]; omega)
        rw [hstay]
        simp only [Prod.mk.injEq]
        refine ⟨?_, ?_, ?_, ?_⟩ <;>
          rw [List.map_congr_left fun c hc => by rw [hcong c hc]]

lemma fuel_invariant_ai2 (cfg : Config2) (pa da : List ℚ → Nat) :
    ∀ (n f g : Nat) (s : GameState), s.turn ≤ 2 →
      s.deck.length + 3 - s.turn ≤ n →
      s.deck.length + 3 - s.turn ≤ f →
      s.deck.length + 3 - s.turn ≤ g →
      get_ai_win_probability2 cfg pa da f s
        = get_ai_win_probability2 cfg pa da g s := by
  intro n
  induction n with
  | zero => intro f g s ht hn hf hg; omega
  | succ n ih =>
    intro f g s ht hn hf hg
    obtain ⟨f', rfl⟩ : ∃ f', f = f' + 1 := ⟨f - 1, by omega⟩
    obtain ⟨g', rfl⟩ : ∃ g', g = g' + 1 := ⟨g - 1, by omega⟩
    simp only [get_ai_win_probability2]
    by_cases hgo : (is_game_over2 cfg s).1
    · simp [hgo]
    · simp only [hgo, Bool.false_eq_true, if_false]
      have h2 : s.turn ≠ 2 := fun h => by
        rw [is_game_over2_turn2 cfg s h] at hgo; exact hgo rfl
      by_cases h1 : s.turn = 1
      · simp only [h1, if_true]
        have hstay : get_ai_win_probability2 cfg pa da f' (stay_state s)
            = get_ai_win_probability2 cfg pa da g' (stay_state s) := by
          exact ih f' g' _ (by simp [stay_state, h1])
            (by simp [stay_state, h1]; omega)
            (by simp [stay_state, h1]; omega)
            (by simp [stay_state, h1]; omega)
        have hcong : ∀ c ∈ np_unique s.deck,
            get_ai_win_probability2 cfg pa da f' (dealer_hit_state s c)
              = get_ai_win_probability2 cfg pa da g' (dealer_hit_state s c) := by
          intro c hc
          have hlen := erase_length_of_mem_np_unique hc
          exact ih f' g' _ (by simp [dealer_hit_state, h1])
            (by simp [dealer_hit_state, h1]; omega)
            (by simp [dealer_hit_state, h1]; omega)
            (by simp [dealer_hit_state, h1]; omega)
        rw [hstay]
        simp only [Prod.mk.injEq]
        refine ⟨?_, ?_, ?_⟩ <;>
          rw [List.map_congr_left fun c hc => by rw [hcong c hc]]
      · simp only [h1, if_false]
        have h0 : s.turn = 0 := by omega
        have hstay : get_ai_win_probability2 cfg pa da f' (stay_state s)
            = get_ai_win_probability2 cfg pa da g' (stay_state s) := by
          exact ih f' g' _ (by simp [stay_state, h0])
            (by simp [stay_state, h0]; omega)
            (by simp [stay_state, h0]; omega)
            (by simp [stay_state, h0]; omega)
        have hcong : ∀ c ∈ np_unique s.deck,
            get_ai_win_probability2 cfg pa da f' (player_hit_state s c)
              = get_ai_win_probability2 cfg pa da g' (player_hit_state s c) := by
          intro c hc
          have hlen := erase_length_of_mem_np_unique hc
          exact ih f' g' _ (by simp [player_hit_state, h0])
            (by simp [player_hit_state, h0]; omega)
            (by simp [player_hit_state, h0]; omega)
            (by simp [player_hit_state, h0]; omega)
        rw [hstay]
        simp only [Prod.mk.injEq]
        refine ⟨?_, ?_, ?_⟩ <;>
          rw [List.map_congr_left fun c hc => by rw [hcong c hc]]

/-! ### One-step equations with explicit fuel -/

lemma th1_succ (cfg : Config1) (f : Nat) (s : GameState) :
    get_theoretical_win_probability1 cfg (f+1) s =
      if (is_game_over1 cfg s).1 then
        ((is_game_over1 cfg s).2.getD 0, (is_game_over1 cfg s).2.getD 0)
      else if s.turn = 1 then
        ( ((np_unique s.deck).map fun card =>
            draw_prob s card *
              (get_theoretical_win_probability1 cfg f (dealer_hit_state s card)).1).sum,
          ((np_unique s.deck).map fun card =>
            draw_prob s card *
              (get_theoretical_win_probability1 cfg f (dealer_hit_state s card)).2).sum )
      else
        ( max (get_theoretical_win_probability1 cfg f (stay_state s)).1
            (((np_unique s.deck).map fun card =>
              draw_prob s card *
                (get_theoretical_win_probability1 cfg f (player_hit_state s card)).1).sum),
          1/2 * (get_theoretical_win_probability1 cfg f (stay_state s)).2
            + 1/2 * (((np_unique s.deck).map fun card =>
                draw_prob s card *
                  (get_theoretical_win_probability1 cfg f (player_hit_state s card)).2).sum) ) := by
  simp only [get_theoretical_win_probability1]

lemma ai1_succ (cfg : Config1) (agent : List ℚ → Nat) (f : Nat) (s : GameState) :
    get_ai_win_probability1 cfg agent (f+1) s =
      if (is_game_over1 cfg s).1 then (is_game_over1 cfg s).2.getD 0
      else if s.turn = 1 then
        ((np_unique s.deck).map fun card =>
          draw_prob s card *
            get_ai_win_probability1 cfg agent f (dealer_hit_state s card)).sum
      else
        if agent (get_features1 cfg s) = 0 then
          get_ai_win_probability1 cfg agent f (stay_state s)
        else
          ((np_unique s.deck).map fun card =>
            draw_prob s card *
              get_ai_win_probability1 cfg agent f (player_hit_state s card)).sum := by
  simp only [get_ai_win_probability1]

lemma th2_succ (cfg : Config2) (f : Nat) (s : GameState) :
    get_theoretical_win_probability2 cfg (f+1) s =
      if (is_game_over2 cfg s).1 then
        ((is_game_over2 cfg s).2.getD 0, (is_game_over2 cfg s).2.getD 0,
         (is_game_over2 cfg s).2.getD 0, (is_game_over2 cfg s).2.getD 0)
      else if s.turn = 1 then
        ( min (get_theoretical_win_probability2 cfg f (stay_state s)).1
            (((np_unique s.deck).map fun card =>
              draw_prob s card *
                (get_theoretical_win_probability2 cfg f (dealer_hit_state s card)).1).sum),
          1/2 * (get_theoretical_win_probability2 cfg f (stay_state s)).2.1
            + 1/2 * (((np_unique s.deck).map fun card =>
                draw_prob s card *
                  (get_theoretical_win_probability2 cfg f (dealer_hit_state s card)).2.1).sum),
          min (get_theoretical_win_probability2 cfg f (stay_state s)).2.2.1
            (((np_unique s.deck).map fun card =>
              draw_prob s card *
                (get_theoretical_win_probability2 cfg f (dealer_hit_state s card)).2.2.1).sum),
          1/2 * (get_theoretical_win_probability2 cfg f (stay_state s)).2.2.2
            + 1/2 * (((np_unique s.deck).map fun card =>
                draw_prob s card *
                  (get_theoretical_win_probability2 cfg f (dealer_hit_state s card)).2.2.2).sum) )
      else
        ( max (get_theoretical_win_probability2 cfg f (stay_state s)).1
            (((np_unique s.deck).map fun card =>
              draw_prob s card *
                (get_theoretical_win_probability2 cfg f (player_hit_state s card)).1).sum),
          max (get_theoretical_win_probability2 cfg f (stay_state s)).2.1
            (((np_unique s.deck).map fun card =>
              draw_prob s card *
                (get_theoretical_win_probability2 cfg f (player_hit_state s card)).2.1).sum),
          1/2 * (get_theoretical_win_probability2 cfg f (stay_state s)).2.2.1
            + 1/2 * (((np_unique s.deck).map fun card =>
                draw_prob s card *
                  (get_theoretical_win_probability2 cfg f (player_hit_state s card)).2.2.1).sum),
          1/2 * (get_theoretical_win_probability2 cfg f (stay_state s)).2.2.2
            + 1/2 * (((np_unique s.deck).map fun card =>
                draw_prob s card *
                  (get_theoretical_win_probability2 cfg f (player_hit_state s card)).2.2.2).sum) ) := by
  simp only [get_theoretical_win_probability2]

lemma ai2_succ (cfg : Config2) (pa da : List ℚ → Nat) (f : Nat) (s : GameState) :
    get_ai_win_probability2 cfg pa da (f+1) s =
      if (is_game_over2 cfg s).1 then
        ((is_game_over2 cfg s).2.getD 0, (is_game_over2 cfg s).2.getD 0,
         (is_game_over2 cfg s).2.getD 0)
      else if s.turn = 1 then
        ( (if da (get_features2 cfg s) = 0 then
            (get_ai_win_probability2 cfg pa da f (stay_state s)).1
          else
            ((np_unique s.deck).map fun card =>
              draw_prob s card *
                (get_ai_win_probability2 cfg pa da f (dealer_hit_state s card)).1).sum),
          1/2 * (get_ai_win_probability2 cfg pa da f (stay_state s)).2.1
            + 1/2 * (((np_unique s.deck).map fun card =>
                draw_prob s card *
                  (get_ai_win_probability2 cfg pa da f (dealer_hit_state s card)).2.1).sum),
          (if da (get_features2 cfg s) = 0 then
            (get_ai_win_probability2 cfg pa da f (stay_state s)).2.2
          else
            ((np_unique s.deck).map fun card =>
              draw_prob s card *
                (get_ai_win_probability2 cfg pa da f (dealer_hit_state s card)).2.2).sum) )
      else
        ( (if pa (get_features2 cfg s) = 0 then
            (get_ai_win_probability2 cfg pa da f (stay_state s)).1
          else
            ((np_unique s.deck).map fun card =>
              draw_prob s card *
                (get_ai_win_probability2 cfg pa da f (player_hit_state s card)).1).sum),
          (if pa (get_features2 cfg s) = 0 then
            (get_ai_win_probability2 cfg pa da f (stay_state s)).2.1
          else
            ((np_unique s.deck).map fun card =>
              draw_prob s card *
                (get_ai_win_probability2 cfg pa da f (player_hit_state s card)).2.1).sum),
          1/2 * (get_ai_win_probability2 cfg pa da f (stay_state s)).2.2
            + 1/2 * (((np_unique s.deck).map fun card =>
                draw_prob s card *
                  (get_ai_win_probability2 cfg pa da f (player_hit_state s card)).2.2).sum) ) := by
  simp only [get_ai_win_probability2]

/-! ### One-step unfolding of the solvers at the sufficient-fuel values -/

lemma theoretical_value1_terminal (cfg : Config1) (s : GameState)
    (h : (is_game_over1 cfg s).1 = true) :
    theoretical_value1 cfg s
      = ((is_game_over1 cfg s).2.getD 0, (is_game_over1 cfg s).2.getD 0) := by
  have hL : s.deck.length + 2 = (s.deck.length + 1) + 1 := rfl
  simp only [theoretical_value1]
  rw [hL, th1_succ]
  simp only [h, if_true]

lemma theoretical_value1_step_dealer (cfg : Config1) (s : GameState)
    (h1 : s.turn = 1) (hnt : (is_game_over1 cfg s).1 = false) :
    theoretical_value1 cfg s =
      ( ((np_unique s.deck).map fun card =>
          draw_prob s card * (theoretical_value1 cfg (dealer_hit_state s card)).1).sum,
        ((np_unique s.deck).map fun card =>
          draw_prob s card * (theoretical_value1 cfg (dealer_hit_state s card)).2).sum ) := by
  have hL : s.deck.length + 2 = (s.deck.length + 1) + 1 := rfl
  simp only [theoretical_value1]
  rw [hL, th1_succ]
  simp only [hnt, Bool.false_eq_true, if_false, h1, if_true]
  have hhit : ∀ c ∈ np_unique s.deck,
      get_theoretical_win_probability1 cfg (s.deck.length + 1) (dealer_hit_state s c)
        = get_theoretical_win_probability1 cfg ((dealer_hit_state s c).deck.length + 2)
            (dealer_hit_state s c) := by
    intro c hc
    have hlen := erase_length_of_mem_np_unique hc
    exact fuel_invariant_th1 cfg (s.deck.length + 2) _ _ _
      (by simp only [dealer_hit_state]; omega)
      (by simp only [dealer_hit_state]; omega)
      (by simp only [dealer_hit_state]; omega)
      (by simp only [dealer_hit_state]; omega)
  simp only [Prod.mk.injEq]
  constructor <;> rw [List.map_congr_left fun c hc => by rw [hhit c hc]]

lemma theoretical_value1_step_player (cfg : Config1) (s : GameState)
    (h0 : s.turn = 0) (hnt : (is_game_over1 cfg s).1 = false) :
    theoretical_value1 cfg s =
      ( max (theoretical_value1 cfg (stay_state s)).1
          (((np_unique s.deck).map fun card =>
            draw_prob s card * (theoretical_value1 cfg (player_hit_state s card)).1).sum),
        1/2 * (theoretical_value1 cfg (stay_state s)).2
          + 1/2 * (((np_unique s.deck).map fun card =>
              draw_prob s card * (theoretical_value1 cfg (player_hit_state s card)).2).sum) ) := by
  have hL : s.deck.length + 2 = (s.deck.length + 1) + 1 := rfl
  have h1 : ¬ s.turn = 1 := by omega
  simp only [theoretical_value1, stay_state]
  rw [hL, th1_succ]
  simp only [hnt, Bool.false_eq_true, if_false, h1, stay_state]
  have hstay : get_theoretical_win_probability1 cfg (s.deck.length + 1)
        { s with turn := s.turn + 1 }
      = get_theoretical_win_probability1 cfg (s.deck.length + 2)
        { s with turn := s.turn + 1 } := by
    exact fuel_invariant_th1 cfg (s.deck.length + 2) _ _ _
      (by simp only []; omega) (by simp only []; omega) (by simp only []; omega)
      (by simp only []; omega)
  have hhit : ∀ c ∈ np_unique s.deck,
      get_theoretical_win_probability1 cfg (s.deck.length + 1) (player_hit_state s c)
        = get_theoretical_win_probability1 cfg ((player_hit_state s c).deck.length + 2)
            (player_hit_state s c) := by
    intro c hc
    have hlen := erase_length_of_mem_np_unique hc
    exact fuel_invariant_th1 cfg (s.deck.length + 2) _ _ _
      (by simp only [player_hit_state]; omega)
      (by simp only [player_hit_state]; omega)
      (by simp only [player_hit_state]; omega)
      (by simp only [player_hit_state]; omega)
  rw [hstay]
  simp only [Prod.mk.injEq]
  constructor <;> rw [List.map_congr_left fun c hc => by rw [hhit c hc]]

lemma ai_value1_terminal (cfg : Config1) (agent : List ℚ → Nat) (s : GameState)
    (h : (is_game_over1 cfg s).1 = true) :
    ai_value1 cfg agent s = (is_game_over1 cfg s).2.getD 0 := by
  have hL : s.deck.length + 2 = (s.deck.length + 1) + 1 := rfl
  simp only [ai_value1]
  rw [hL, ai1_succ]
  simp only [h, if_true]

lemma ai_value1_step_dealer (cfg : Config1) (agent : List ℚ → Nat) (s : GameState)
    (h1 : s.turn = 1) (hnt : (is_game_over1 cfg s).1 = false) :
    ai_value1 cfg agent s =
      ((np_unique s.deck).map fun card =>
        draw_prob s card * ai_value1 cfg agent (dealer_hit_state s card)).sum := by
  have hL : s.deck.length + 2 = (s.deck.length + 1) + 1 := rfl
  simp only [ai_value1]
  rw [hL, ai1_succ]
  simp only [hnt, Bool.false_eq_true, if_false, h1, if_true]
  refine congrArg List.sum (List.map_congr_left fun c hc => ?_)
  have hlen := erase_length_of_mem_np_unique hc
  rw [fuel_invariant_ai1 cfg agent (s.deck.length + 2) (s.deck.length + 1)
    ((dealer_hit_state s c).deck.length + 2) (dealer_hit_state s c)
    (by simp only [dealer_hit_state]; omega)
    (by simp only [dealer_hit_state]; omega)
    (by simp only [dealer_hit_state]; omega)
    (by simp only [dealer_hit_state]; omega)]

lemma ai_value1_step_player_stay (cfg : Config1) (agent : List ℚ → Nat) (s : GameState)
    (h0 : s.turn = 0) (hnt : (is_game_over1 cfg s).1 = false)
    (ha : agent (get_features1 cfg s) = 0) :
    ai_value1 cfg agent s = ai_value1 cfg agent (stay_state s) := by
  have hL : s.deck.length + 2 = (s.deck.length + 1) + 1 := rfl
  have h1 : ¬ s.turn = 1 := by omega
  simp only [ai_value1]
  rw [hL, ai1_succ]
  simp only [hnt, Bool.false_eq_true, if_false, h1, ha, if_true]
  exact fuel_invariant_ai1 cfg agent (s.deck.length + 2) _ _ _
    (by simp only [stay_state]; omega)
    (by simp only [stay_state]; omega)
    (by simp only [stay_state]; omega)
    (by simp only [stay_state]; omega)

lemma ai_value1_step_player_hit (cfg : Config1) (agent : List ℚ → Nat) (s : GameState)
    (h0 : s.turn = 0) (hnt : (is_game_over1 cfg s).1 = false)
    (ha : ¬ agent (get_features1 cfg s) = 0) :
    ai_value1 cfg agent s =
      ((np_unique s.deck).map fun card =>
        draw_prob s card * ai_value1 cfg agent (player_hit_state s card)).sum := by
  have hL : s.deck.length + 2 = (s.deck.length + 1) + 1 := rfl
  have h1 : ¬ s.turn = 1 := by omega
  simp only [ai_value1]
  rw [hL, ai1_succ]
  simp only [hnt, Bool.false_eq_true, if_false, h1, ha, if_true]
  refine congrArg List.sum (List.map_congr_left fun c hc => ?_)
  have hlen := erase_length_of_mem_np_unique hc
  rw [fuel_invariant_ai1 cfg agent (s.deck.length + 2) (s.deck.length + 1)
    ((player_hit_state s c).deck.length + 2) (player_hit_state s c)
    (by simp only [player_hit_state]; omega)
    (by simp only [player_hit_state]; omega)
    (by simp only [player_hit_state]; omega)
    (by simp only [player_hit_state]; omega)]

lemma theoretical_value2_terminal (cfg : Config2) (s : GameState)
    (h : (is_game_over2 cfg s).1 = true) :
    theoretical_value2 cfg s
      = ((is_game_over2 cfg s).2.getD 0, (is_game_over2 cfg s).2.getD 0,
         (is_game_over2 cfg s).2.getD 0, (is_game_over2 cfg s).2.getD 0) := by
  have hL : s.deck.length + 3 = (s.deck.length + 2) + 1 := rfl
  simp only [theoretical_value2]
  rw [hL, th2_succ]
  simp only [h, if_true]

lemma theoretical_value2_step_dealer (cfg : Config2) (s : GameState)
    (h1 : s.turn = 1) (hnt : (is_game_over2 cfg s).1 = false) :
    theoretical_value2 cfg s =
      ( min (theoretical_value2 cfg (stay_state s)).1
          (((np_unique s.deck).map fun card =>
            draw_prob s card * (theoretical_value2 cfg (dealer_hit_state s card)).1).sum),
        1/2 * (theoretical_value2 cfg (stay_state s)).2.1
          + 1/2 * (((np_unique s.deck).map fun card =>
              draw_prob s card * (theoretical_value2 cfg (dealer_hit_state s card)).2.1).sum),
        min (theoretical_value2 cfg (stay_state s)).2.2.1
          (((np_unique s.deck).map fun card =>
            draw_prob s card * (theoretical_value2 cfg (dealer_hit_state s card)).2.2.1).sum),
        1/2 * (theoretical_value2 cfg (stay_state s)).2.2.2
          + 1/2 * (((np_unique s.deck).map fun card =>
              draw_prob s card * (theoretical_value2 cfg (dealer_hit_state s card)).2.2.2).sum) ) := by
  have hL : s.deck.length + 3 = (s.deck.length + 2) + 1 := rfl
  simp only [theoretical_value2]
  rw [hL, th2_succ]
  simp only [hnt, Bool.false_eq_true, if_false, h1, if_true]
  have hstay : get_theoretical_win_probability2 cfg (s.deck.length + 2) (stay_state s)
      = get_theoretical_win_probability2 cfg ((stay_state s).deck.length + 3) (stay_state s) := by
    exact fuel_invariant_th2 cfg (s.deck.length + 3) _ _ _
      (by simp only [stay_state]; omega)
      (by simp only [stay_state]; omega)
      (by simp only [stay_state]; omega)
      (by simp only [stay_state]; omega)
  have hhit : ∀ c ∈ np_unique s.deck,
      get_theoretical_win_probability2 cfg (s.deck.length + 2) (dealer_hit_state s c)
        = get_theoretical_win_probability2 cfg ((dealer_hit_state s c).deck.length + 3)
            (dealer_hit_state s c) := by
    intro c hc
    have hlen := erase_length_of_mem_np_unique hc
    exact fuel_invariant_th2 cfg (s.deck.length + 3) _ _ _
      (by simp only [dealer_hit_state]; omega)
      (by simp only [dealer_hit_state]; omega)
      (by simp only [dealer_hit_state]; omega)
      (by simp only [dealer_hit_state]; omega)
  rw [hstay]
  simp only [Prod.mk.injEq]
  refine ⟨?_, ?_, ?_, ?_⟩ <;>
    rw [List.map_congr_left fun c hc => by rw [hhit c hc]]

lemma theoretical_value2_step_player (cfg : Config2) (s : GameState)
    (h0 : s.turn = 0) (hnt : (is_game_over2 cfg s).1 = false) :
    theoretical_value2 cfg s =
      ( max (theoretical_value2 cfg (stay_state s)).1
          (((np_unique s.deck).map fun card =>
            draw_prob s card * (theoretical_value2 cfg (player_hit_state s card)).1).sum),
        max (theoretical_value2 cfg (stay_state s)).2.1
          (((np_unique s.deck).map fun card =>
            draw_prob s card * (theoretical_value2 cfg (player_hit_state s card)).2.1).sum),
        1/2 * (theoretical_value2 cfg (stay_state s)).2.2.1
          + 1/2 * (((np_unique s.deck).map fun card =>
              draw_prob s card * (theoretical_value2 cfg (player_hit_state s card)).2.2.1).sum),
        1/2 * (theoretical_value2 cfg (stay_state s)).2.2.2
          + 1/2 * (((np_unique s.deck).map fun card =>
              draw_prob s card * (theoretical_value2 cfg (player_hit_state s card)).2.2.2).sum) ) := by
  have hL : s.deck.length + 3 = (s.deck.length + 2) + 1 := rfl
  have h1 : ¬ s.turn = 1 := by omega
  simp only [theoretical_value2]
  rw [hL, th2_succ]
  simp only [hnt, Bool.false_eq_true, if_false, h1, if_true]
  have hstay : get_theoretical_win_probability2 cfg (s.deck.length + 2) (stay_state s)
      = get_theoretical_win_probability2 cfg ((stay_state s).deck.length + 3) (stay_state s) := by
    exact fuel_invariant_th2 cfg (s.deck.length + 3) _ _ _
      (by simp only [stay_state]; omega)
      (by simp only [stay_state]; omega)
      (by simp only [stay_state]; omega)
      (by simp only [stay_state]; omega)
  have hhit : ∀ c ∈ np_unique s.deck,
      get_theoretical_win_probability2 cfg (s.deck.length + 2) (player_hit_state s c)
        = get_theoretical_win_probability2 cfg ((player_hit_state s c).deck.length + 3)
            (player_hit_state s c) := by
    intro c hc
    have hlen := erase_length_of_mem_np_unique hc
    exact fuel_invariant_th2 cfg (s.deck.length + 3) _ _ _
      (by simp only [player_hit_state]; omega)
      (by simp only [player_hit_state]; omega)
      (by simp only [player_hit_state]; omega)
      (by simp only [player_hit_state]; omega)
  rw [hstay]
  simp only [Prod.mk.injEq]
  refine ⟨?_, ?_, ?_, ?_⟩ <;>
    rw [List.map_congr_left fun c hc => by rw [hhit c hc]]

lemma ai_value2_terminal (cfg : Config2) (pa da : List ℚ → Nat) (s : GameState)
    (h : (is_game_over2 cfg s).1 = true) :
    ai_value2 cfg pa da s
      = ((is_game_over2 cfg s).2.getD 0, (is_game_over2 cfg s).2.getD 0,
         (is_game_over2 cfg s).2.getD 0) := by
  have hL : s.deck.length + 3 = (s.deck.length + 2) + 1 := rfl
  simp only [ai_value2]
  rw [hL, ai2_succ]
  simp only [h, if_true]

lemma ai_value2_step_dealer (cfg : Config2) (pa da : List ℚ → Nat) (s : GameState)
    (h1 : s.turn = 1) (hnt : (is_game_over2 cfg s).1 = false) :
    ai_value2 cfg pa da s =
      ( (if da (get_features2 cfg s) = 0 then (ai_value2 cfg pa da (stay_state s)).1
        else
          ((np_unique s.deck).map fun card =>
            draw_prob s card * (ai_value2 cfg pa da (dealer_hit_state s card)).1).sum),
        1/2 * (ai_value2 cfg pa da (stay_state s)).2.1
          + 1/2 * (((np_unique s.deck).map fun card =>
              draw_prob s card * (ai_value2 cfg pa da (dealer_hit_state s card)).2.1).sum),
        (if da (get_features2 cfg s) = 0 then (ai_value2 cfg pa da (stay_state s)).2.2
        else
          ((np_unique s.deck).map fun card =>
            draw_prob s card * (ai_value2 cfg pa da (dealer_hit_state s card)).2.2).sum) ) := by
  have hL : s.deck.length + 3 = (s.deck.length + 2) + 1 := rfl
  simp only [ai_value2]
  rw [hL, ai2_succ]
  simp only [hnt, Bool.false_eq_true, if_false, h1, if_true]
  have hstay : get_ai_win_probability2 cfg pa da (s.deck.length + 2) (stay_state s)
      = get_ai_win_probability2 cfg pa da ((stay_state s).deck.length + 3) (stay_state s) := by
    exact fuel_invariant_ai2 cfg pa da (s.deck.length + 3) _ _ _
      (by simp only [stay_state]; omega)
      (by simp only [stay_state]; omega)
      (by simp only [stay_state]; omega)
      (by simp only [stay_state]; omega)
  have hhit : ∀ c ∈ np_unique s.deck,
      get_ai_win_probability2 cfg pa da (s.deck.length + 2) (dealer_hit_state s c)
        = get_ai_win_probability2 cfg pa da ((dealer_hit_state s c).deck.length + 3)
            (dealer_hit_state s c) := by
    intro c hc
    have hlen := erase_length_of_mem_np_unique hc
    exact fuel_invariant_ai2 cfg pa da (s.deck.length + 3) _ _ _
      (by simp only [dealer_hit_state]; omega)
      (by simp only [dealer_hit_state]; omega)
      (by simp only [dealer_hit_state]; omega)
      (by simp only [dealer_hit_state]; omega)
  rw [hstay]
  simp only [Prod.mk.injEq]
  refine ⟨?_, ?_, ?_⟩ <;>
    rw [List.map_congr_left fun c hc => by rw [hhit c hc]]

lemma ai_value2_step_player (cfg : Config2) (pa da : List ℚ → Nat) (s : GameState)
    (h0 : s.turn = 0) (hnt : (is_game_over2 cfg s).1 = false) :
    ai_value2 cfg pa da s =
      ( (if pa (get_features2 cfg s) = 0 then (ai_value2 cfg pa da (stay_state s)).1
        else
          ((np_unique s.deck).map fun card =>
            draw_prob s card * (ai_value2 cfg pa da (player_hit_state s card)).1).sum),
        (if pa (get_features2 cfg s) = 0 then (ai_value2 cfg pa da (stay_state s)).2.1
        else
          ((np_unique s.deck).map fun card =>
            draw_prob s card * (ai_value2 cfg pa da (player_hit_state s card)).2.1).sum),
        1/2 * (ai_value2 cfg pa da (stay_state s)).2.2
          + 1/2 * (((np_unique s.deck).map fun card =>
              draw_prob s card * (ai_value2 cfg pa da (player_hit_state s card)).2.2).sum) ) := by
  have hL : s.deck.length + 3 = (s.deck.length + 2) + 1 := rfl
  have h1 : ¬ s.turn = 1 := by omega
  simp only [ai_value2]
  rw [hL, ai2_succ]
  simp only [hnt, Bool.false_eq_true, if_false, h1, if_true]
  have hstay : get_ai_win_probability2 cfg pa da (s.deck.length + 2) (stay_state s)
      = get_ai_win_probability2 cfg pa da ((stay_state s).deck.length + 3) (stay_state s) := by
    exact fuel_invariant_ai2 cfg pa da (s.deck.length + 3) _ _ _
      (by simp only [stay_state]; omega)
      (by simp only [stay_state]; omega)
      (by simp only [stay_state]; omega)
      (by simp only [stay_state]; omega)
  have hhit : ∀ c ∈ np_unique s.deck,
      get_ai_win_probability2 cfg pa da (s.deck.length + 2) (player_hit_state s c)
        = get_ai_win_probability2 cfg pa da ((player_hit_state s c).deck.length + 3)
            (player_hit_state s c) := by
    intro c hc
    have hlen := erase_length_of_mem_np_unique hc
    exact fuel_invariant_ai2 cfg pa da (s.deck.length + 3) _ _ _
      (by simp only [player_hit_state]; omega)
      (by simp only [player_hit_state]; omega)
      (by simp only [player_hit_state]; omega)
      (by simp only [player_hit_state]; omega)
  rw [hstay]
  simp only [Prod.mk.injEq]
  refine ⟨?_, ?_, ?_⟩ <;>
    rw [List.map_congr_left fun c hc => by rw [hhit c hc]]

/-! ### Nonnegativity and basic bounds -/

lemma draw_prob_nonneg (s : GameState) (c : Nat) : 0 ≤ draw_prob s c := by
  unfold draw_prob
  positivity

/-! ### Claim C5 auxiliary: optimal dominates random, by fuel induction -/

lemma th1_rand_le_opt (cfg : Config1) : ∀ (f : Nat) (s : GameState),
    (get_theoretical_win_probability1 cfg f s).2
      ≤ (get_theoretical_win_probability1 cfg f s).1 := by
  intro f
  induction f with
  | zero => intro s; simp [get_theoretical_win_probability1]
  | succ f ih =>
    intro s
    rw [th1_succ]
    by_cases hgo : (is_game_over1 cfg s).1
    · simp [hgo]
    · simp only [hgo, Bool.false_eq_true, if_false]
      by_cases h1 : s.turn = 1
      · simp only [h1, if_true]
        exact List.sum_le_sum fun c _ =>
          mul_le_mul_of_nonneg_left (ih (dealer_hit_state s c)) (draw_prob_nonneg s c)
      · simp only [h1, if_false]
        have hs := ih (stay_state s)
        have hh : ((np_unique s.deck).map fun card =>
              draw_prob s card *
                (get_theoretical_win_probability1 cfg f (player_hit_state s card)).2).sum
            ≤ ((np_unique s.deck).map fun card =>
              draw_prob s card *
                (get_theoretical_win_probability1 cfg f (player_hit_state s card)).1).sum :=
          List.sum_le_sum fun c _ =>
            mul_le_mul_of_nonneg_left (ih (player_hit_state s c)) (draw_prob_nonneg s c)
        have h3 := le_max_left (get_theoretical_win_probability1 cfg f (stay_state s)).1
          (((np_unique s.deck).map fun card =>
            draw_prob s card *
              (get_theoretical_win_probability1 cfg f (player_hit_state s card)).1).sum)
        have h4 := le_max_right (get_theoretical_win_probability1 cfg f (stay_state s)).1
          (((np_unique s.deck).map fun card =>
            draw_prob s card *
              (get_theoretical_win_probability1 cfg f (player_hit_state s card)).1).sum)
        linarith

lemma th2_rand_le_opt (cfg : Config2) : ∀ (f : Nat) (s : GameState),
    (get_theoretical_win_probability2 cfg f s).2.2.1
        ≤ (get_theoretical_win_probability2 cfg f s).1 ∧
      (get_theoretical_win_probability2 cfg f s).2.2.2
        ≤ (get_theoretical_win_probability2 cfg f s).2.1 := by
  intro f
  induction f with
  | zero => intro s; simp [get_theoretical_win_probability2]
  | succ f ih =>
    intro s
    rw [th2_succ]
    by_cases hgo : (is_game_over2 cfg s).1
    · simp [hgo]
    · simp only [hgo, Bool.false_eq_true, if_false]
      have hstay := ih (stay_state s)
      by_cases h1 : s.turn = 1
      · simp only [h1, if_true]
        have hh1 : ((np_unique s.deck).map fun card =>
              draw_prob s card *
                (get_theoretical_win_probability2 cfg f (dealer_hit_state s card)).2.2.1).sum
            ≤ ((np_unique s.deck).map fun card =>
              draw_prob s card *
                (get_theoretical_win_probability2 cfg f (dealer_hit_state s card)).1).sum :=
          List.sum_le_sum fun c _ =>
            mul_le_mul_of_nonneg_left (ih (dealer_hit_state s c)).1 (draw_prob_nonneg s c)
        have hh2 : ((np_unique s.deck).map fun card =>
              draw_prob s card *
                (get_theoretical_win_probability2 cfg f (dealer_hit_state s card)).2.2.2).sum
            ≤ ((np_unique s.deck).map fun card =>
              draw_prob s card *
                (get_theoretical_win_probability2 cfg f (dealer_hit_state s card)).2.1).sum :=
          List.sum_le_sum fun c _ =>
            mul_le_mul_of_nonneg_left (ih (dealer_hit_state s c)).2 (draw_prob_nonneg s c)
        exact ⟨min_le_min hstay.1 hh1, by linarith [hstay.2]⟩
      · simp only [h1, if_false]
        have hh1 : ((np_unique s.deck).map fun card =>
              draw_prob s card *
                (get_theoretical_win_probability2 cfg f (player_hit_state s card)).2.2.1).sum
            ≤ ((np_unique s.deck).map fun card =>
              draw_prob s card *
                (get_theoretical_win_probability2 cfg f (player_hit_state s card)).1).sum :=
          List.sum_le_sum fun c _ =>
            mul_le_mul_of_nonneg_left (ih (player_hit_state s c)).1 (draw_prob_nonneg s c)
        have hh2 : ((np_unique s.deck).map fun card =>
              draw_prob s card *
                (get_theoretical_win_probability2 cfg f (player_hit_state s card)).2.2.2).sum
            ≤ ((np_unique s.deck).map fun card =>
              draw_prob s card *
                (get_theoretical_win_probability2 cfg f (player_hit_state s card)).2.1).sum :=
          List.sum_le_sum fun c _ =>
            mul_le_mul_of_nonneg_left (ih (player_hit_state s c)).2 (draw_prob_nonneg s c)
        constructor
        · have h3 := le_max_left (get_theoretical_win_probability2 cfg f (stay_state s)).1
            (((np_unique s.deck).map fun card =>
              draw_prob s card *
                (get_theoretical_win_probability2 cfg f (player_hit_state s card)).1).sum)
          have h4 := le_max_right (get_theoretical_win_probability2 cfg f (stay_state s)).1
            (((np_unique s.deck).map fun card =>
              draw_prob s card *
                (get_theoretical_win_probability2 cfg f (player_hit_state s card)).1).sum)
          linarith [hstay.1]
        · have h3 := le_max_left (get_theoretical_win_probability2 cfg f (stay_state s)).2.1
            (((np_unique s.deck).map fun card =>
              draw_prob s card *
                (get_theoretical_win_probability2 cfg f (player_hit_state s card)).2.1).sum)
          have h4 := le_max_right (get_theoretical_win_probability2 cfg f (stay_state s)).2.1
            (((np_unique s.deck).map fun card =>
              draw_prob s card *
                (get_theoretical_win_probability2 cfg f (player_hit_state s card)).2.1).sum)
          linarith [hstay.2]

/-- C1: at every non-terminal player-turn state, in both variants, the
analytical solver assigns to each player-optimal slot
`max(V_stay, V_hit)` and to each player-random slot
`0.5 * V_stay + 0.5 * V_hit`, where `V_stay` is the recursive value of the
state with the turn advanced and `V_hit` the draw-probability-weighted sum,
over the distinct remaining card values, of the recursive value after the
player draws that card. -/
theorem C1_player_turn_combination :
    (∀ (cfg : Config1) (s : GameState), s.turn = 0 →
      (is_game_over1 cfg s).1 = false →
      theoretical_value1 cfg s =
        ( max (theoretical_value1 cfg (stay_state s)).1
            (((np_unique s.deck).map fun card =>
              draw_prob s card * (theoretical_value1 cfg (player_hit_state s card)).1).sum),
          1/2 * (theoretical_value1 cfg (stay_state s)).2
            + 1/2 * (((np_unique s.deck).map fun card =>
                draw_prob s card * (theoretical_value1 cfg (player_hit_state s card)).2).sum) )) ∧
    (∀ (cfg : Config2) (s : GameState), s.turn = 0 →
      (is_game_over2 cfg s).1 = false →
      theoretical_value2 cfg s =
        ( max (theoretical_value2 cfg (stay_state s)).1
            (((np_unique s.deck).map fun card =>
              draw_prob s card * (theoretical_value2 cfg (player_hit_state s card)).1).sum),
          max (theoretical_value2 cfg (stay_state s)).2.1
            (((np_unique s.deck).map fun card =>
              draw_prob s card * (theoretical_value2 cfg (player_hit_state s card)).2.1).sum),
          1/2 * (theoretical_value2 cfg (stay_state s)).2.2.1
            + 1/2 * (((np_unique s.deck).map fun card =>
                draw_prob s card * (theoretical_value2 cfg (player_hit_state s card)).2.2.1).sum),
          1/2 * (theoretical_value2 cfg (stay_state s)).2.2.2
            + 1/2 * (((np_unique s.deck).map fun card =>
                draw_prob s card * (theoretical_value2 cfg (player_hit_state s card)).2.2.2).sum) )) :=
  ⟨theoretical_value1_step_player, theoretical_value2_step_player⟩

/-- Witness for C1 at a concrete non-terminal player-turn state of each
variant. -/
theorem C1_witness :
    ( theoretical_value1 ⟨[1, 2], 3, 2⟩ ⟨[1], [1], [2], 0⟩ =
        ( max (theoretical_value1 ⟨[1, 2], 3, 2⟩ (stay_state ⟨[1], [1], [2], 0⟩)).1
            (((np_unique (GameState.deck ⟨[1], [1], [2], 0⟩)).map fun card =>
              draw_prob ⟨[1], [1], [2], 0⟩ card *
                (theoretical_value1 ⟨[1, 2], 3, 2⟩
                  (player_hit_state ⟨[1], [1], [2], 0⟩ card)).1).sum),
          1/2 * (theoretical_value1 ⟨[1, 2], 3, 2⟩ (stay_state ⟨[1], [1], [2], 0⟩)).2
            + 1/2 * (((np_unique (GameState.deck ⟨[1], [1], [2], 0⟩)).map fun card =>
                draw_prob ⟨[1], [1], [2], 0⟩ card *
                  (theoretical_value1 ⟨[1, 2], 3, 2⟩
                    (player_hit_state ⟨[1], [1], [2], 0⟩ card)).2).sum) ) ) ∧
    ( theoretical_value2 ⟨[1, 2], 3⟩ ⟨[1], [1], [2], 0⟩ =
        ( max (theoretical_value2 ⟨[1, 2], 3⟩ (stay_state ⟨[1], [1], [2], 0⟩)).1
            (((np_unique (GameState.deck ⟨[1], [1], [2], 0⟩)).map fun card =>
              draw_prob ⟨[1], [1], [2], 0⟩ card *
                (theoretical_value2 ⟨[1, 2], 3⟩
                  (player_hit_state ⟨[1], [1], [2], 0⟩ card)).1).sum),
          max (theoretical_value2 ⟨[1, 2], 3⟩ (stay_state ⟨[1], [1], [2], 0⟩)).2.1
            (((np_unique (GameState.deck ⟨[1], [1], [2], 0⟩)).map fun card =>
              draw_prob ⟨[1], [1], [2], 0⟩ card *
                (theoretical_value2 ⟨[1, 2], 3⟩
                  (player_hit_state ⟨[1], [1], [2], 0⟩ card)).2.1).sum),
          1/2 * (theoretical_value2 ⟨[1, 2], 3⟩ (stay_state ⟨[1], [1], [2], 0⟩)).2.2.1
            + 1/2 * (((np_unique (GameState.deck ⟨[1], [1], [2], 0⟩)).map fun card =>
                draw_prob ⟨[1], [1], [2], 0⟩ card *
                  (theoretical_value2 ⟨[1, 2], 3⟩
                    (player_hit_state ⟨[1], [1], [2], 0⟩ card)).2.2.1).sum),
          1/2 * (theoretical_value2 ⟨[1, 2], 3⟩ (stay_state ⟨[1], [1], [2], 0⟩)).2.2.2
            + 1/2 * (((np_unique (GameState.deck ⟨[1], [1], [2], 0⟩)).map fun card =>
                draw_prob ⟨[1], [1], [2], 0⟩ card *
                  (theoretical_value2 ⟨[1, 2], 3⟩
                    (player_hit_state ⟨[1], [1], [2], 0⟩ card)).2.2.2).sum) ) ) :=
  ⟨C1_player_turn_combination.1 ⟨[1, 2], 3, 2⟩ ⟨[1], [1], [2], 0⟩ rfl (by decide),
   C1_player_turn_combination.2 ⟨[1, 2], 3⟩ ⟨[1], [1], [2], 0⟩ rfl (by decide)⟩

/-- C2: at every non-terminal dealer-turn state of the two-player variant,
the analytical solver assigns to each dealer-optimal slot
`min(V_stay, V_hit)` (the branch worse for the player) and to each
dealer-random slot `0.5 * V_stay + 0.5 * V_hit`, with `V_stay` the
recursive value of the state with the turn advanced and `V_hit` the
draw-probability-weighted sum over distinct remaining card values of the
recursive value after the dealer draws that card. -/
theorem C2_dealer_turn_combination :
    ∀ (cfg : Config2) (s : GameState), s.turn = 1 →
      (is_game_over2 cfg s).1 = false →
      theoretical_value2 cfg s =
        ( min (theoretical_value2 cfg (stay_state s)).1
            (((np_unique s.deck).map fun card =>
              draw_prob s card * (theoretical_value2 cfg (dealer_hit_state s card)).1).sum),
          1/2 * (theoretical_value2 cfg (stay_state s)).2.1
            + 1/2 * (((np_unique s.deck).map fun card =>
                draw_prob s card * (theoretical_value2 cfg (dealer_hit_state s card)).2.1).sum),
          min (theoretical_value2 cfg (stay_state s)).2.2.1
            (((np_unique s.deck).map fun card =>
              draw_prob s card * (theoretical_value2 cfg (dealer_hit_state s card)).2.2.1).sum),
          1/2 * (theoretical_value2 cfg (stay_state s)).2.2.2
            + 1/2 * (((np_unique s.deck).map fun card =>
                draw_prob s card * (theoretical_value2 cfg (dealer_hit_state s card)).2.2.2).sum) ) :=
  theoretical_value2_step_dealer

/-- Witness for C2 at a concrete non-terminal dealer-turn state. -/
theorem C2_witness :
    theoretical_value2 ⟨[1, 2], 3⟩ ⟨[1], [2], [2], 1⟩ =
      ( min (theoretical_value2 ⟨[1, 2], 3⟩ (stay_state ⟨[1], [2], [2], 1⟩)).1
          (((np_unique (GameState.deck ⟨[1], [2], [2], 1⟩)).map fun card =>
            draw_prob ⟨[1], [2], [2], 1⟩ card *
              (theoretical_value2 ⟨[1, 2], 3⟩
                (dealer_hit_state ⟨[1], [2], [2], 1⟩ card)).1).sum),
        1/2 * (theoretical_value2 ⟨[1, 2], 3⟩ (stay_state ⟨[1], [2], [2], 1⟩)).2.1
          + 1/2 * (((np_unique (GameState.deck ⟨[1], [2], [2], 1⟩)).map fun card =>
              draw_prob ⟨[1], [2], [2], 1⟩ card *
                (theoretical_value2 ⟨[1, 2], 3⟩
                  (dealer_hit_state ⟨[1], [2], [2], 1⟩ card)).2.1).sum),
        min (theoretical_value2 ⟨[1, 2], 3⟩ (stay_state ⟨[1], [2], [2], 1⟩)).2.2.1
          (((np_unique (GameState.deck ⟨[1], [2], [2], 1⟩)).map fun card =>
            draw_prob ⟨[1], [2], [2], 1⟩ card *
              (theoretical_value2 ⟨[1, 2], 3⟩
                (dealer_hit_state ⟨[1], [2], [2], 1⟩ card)).2.2.1).sum),
        1/2 * (theoretical_value2 ⟨[1, 2], 3⟩ (stay_state ⟨[1], [2], [2], 1⟩)).2.2.2
          + 1/2 * (((np_unique (GameState.deck ⟨[1], [2], [2], 1⟩)).map fun card =>
              draw_prob ⟨[1], [2], [2], 1⟩ card *
                (theoretical_value2 ⟨[1, 2], 3⟩
                  (dealer_hit_state ⟨[1], [2], [2], 1⟩ card)).2.2.2).sum) ) :=
  C2_dealer_turn_combination ⟨[1, 2], 3⟩ ⟨[1], [2], [2], 1⟩ rfl (by decide)

/-- C5: for every game state, with the dealer behaviour held fixed, the
analytical solver's player-optimal value dominates its player-random
value: in the one-player variant `random ≤ optimal`, and in the
two-player variant `rpod ≤ opod` and `rprd ≤ oprd`. -/
theorem C5_optimal_dominates_random :
    (∀ (cfg : Config1) (s : GameState),
      (theoretical_value1 cfg s).2 ≤ (theoretical_value1 cfg s).1) ∧
    (∀ (cfg : Config2) (s : GameState),
      (theoretical_value2 cfg s).2.2.1 ≤ (theoretical_value2 cfg s).1 ∧
      (theoretical_value2 cfg s).2.2.2 ≤ (theoretical_value2 cfg s).2.1) :=
  ⟨fun cfg s => th1_rand_le_opt cfg (s.deck.length + 2) s,
   fun cfg s => th2_rand_le_opt cfg (s.deck.length + 3) s⟩

/-- C8: in both variants, a completed dealer play with equal hand sums is
a tie awarded to the dealer: `is_game_over` returns `(True, 0.0)`. -/
theorem C8_tie_goes_to_dealer :
    (∀ (cfg : Config1) (s : GameState), s.turn = 1 →
      s.dealer_hand.sum ≤ cfg.blackjack_num →
      cfg.dealer_limit ≤ s.dealer_hand.sum →
      s.player_hand.sum = s.dealer_hand.sum →
      is_game_over1 cfg s = (true, some 0)) ∧
    (∀ (cfg : Config2) (s : GameState), s.turn = 2 →
      s.player_hand.sum = s.dealer_hand.sum →
      is_game_over2 cfg s = (true, some 0)) := by
  constructor
  · intro cfg s h1 hnb hlim heq
    simp only [is_game_over1]
    split_ifs <;> first | rfl | omega
  · intro cfg s h2 heq
    simp only [is_game_over2]
    split_ifs <;> first | rfl | omega

/-- Witness for C8 at concrete tied states. -/
theorem C8_witness :
    is_game_over1 ⟨[], 10, 5⟩ ⟨[5], [5], [], 1⟩ = (true, some 0) ∧
    is_game_over2 ⟨[], 10⟩ ⟨[3], [3], [], 2⟩ = (true, some 0) :=
  ⟨C8_tie_goes_to_dealer.1 ⟨[], 10, 5⟩ ⟨[5], [5], [], 1⟩ rfl (by decide) (by decide) rfl,
   C8_tie_goes_to_dealer.2 ⟨[], 10⟩ ⟨[3], [3], [], 2⟩ rfl rfl⟩

/-- C10: every solver run on a state with a finite deck terminates within
a recursion depth bounded by the deck size plus the bounded number of turn
advances: any fuel of at least `deck.length + 2` (one-player) resp.
`deck.length + 3` (two-player) computes the same value as the canonical
bounded run, for the analytical and the policy-driven solver alike. -/
theorem C10_recursion_depth_bounded :
    (∀ (cfg : Config1) (s : GameState) (f : Nat), s.turn ≤ 1 →
      s.deck.length + 2 ≤ f →
      get_theoretical_win_probability1 cfg f s = theoretical_value1 cfg s) ∧
    (∀ (cfg : Config1) (agent : List ℚ → Nat) (s : GameState) (f : Nat), s.turn ≤ 1 →
      s.deck.length + 2 ≤ f →
      get_ai_win_probability1 cfg agent f s = ai_value1 cfg agent s) ∧
    (∀ (cfg : Config2) (s : GameState) (f : Nat), s.turn ≤ 2 →
      s.deck.length + 3 ≤ f →
      get_theoretical_win_probability2 cfg f s = theoretical_value2 cfg s) ∧
    (∀ (cfg : Config2) (pa da : List ℚ → Nat) (s : GameState) (f : Nat), s.turn ≤ 2 →
      s.deck.length + 3 ≤ f →
      get_ai_win_probability2 cfg pa da f s = ai_value2 cfg pa da s) := by
  refine ⟨fun cfg s f ht hf => ?_, fun cfg agent s f ht hf => ?_,
    fun cfg s f ht hf => ?_, fun cfg pa da s f ht hf => ?_⟩
  · exact fuel_invariant_th1 cfg f f (s.deck.length + 2) s ht (by omega) (by omega) (by omega)
  · exact fuel_invariant_ai1 cfg agent f f (s.deck.length + 2) s ht (by omega) (by omega)
      (by omega)
  · exact fuel_invariant_th2 cfg f f (s.deck.length + 3) s ht (by omega) (by omega) (by omega)
  · exact fuel_invariant_ai2 cfg pa da f f (s.deck.length + 3) s ht (by omega) (by omega)
      (by omega)

/-- Witness for C10: extra fuel does not change any solver value at a
concrete state. -/
theorem C10_witness :
    get_theoretical_win_probability1 ⟨[1, 2], 3, 2⟩ 10 ⟨[1], [1], [2], 0⟩
        = theoretical_value1 ⟨[1, 2], 3, 2⟩ ⟨[1], [1], [2], 0⟩ ∧
    get_ai_win_probability1 ⟨[1, 2], 3, 2⟩ (fun _ => 1) 10 ⟨[1], [1], [2], 0⟩
        = ai_value1 ⟨[1, 2], 3, 2⟩ (fun _ => 1) ⟨[1], [1], [2], 0⟩ ∧
    get_theoretical_win_probability2 ⟨[1, 2], 3⟩ 10 ⟨[1], [1], [2], 0⟩
        = theoretical_value2 ⟨[1, 2], 3⟩ ⟨[1], [1], [2], 0⟩ ∧
    get_ai_win_probability2 ⟨[1, 2], 3⟩ (fun _ => 1) (fun _ => 0) 10 ⟨[1], [1], [2], 0⟩
        = ai_value2 ⟨[1, 2], 3⟩ (fun _ => 1) (fun _ => 0) ⟨[1], [1], [2], 0⟩ :=
  ⟨C10_recursion_depth_bounded.1 ⟨[1, 2], 3, 2⟩ ⟨[1], [1], [2], 0⟩ 10 (by decide) (by decide),
   C10_recursion_depth_bounded.2.1 ⟨[1, 2], 3, 2⟩ (fun _ => 1) ⟨[1], [1], [2], 0⟩ 10
     (by decide) (by decide),
   C10_recursion_depth_bounded.2.2.1 ⟨[1, 2], 3⟩ ⟨[1], [1], [2], 0⟩ 10 (by decide) (by decide),
   C10_recursion_depth_bounded.2.2.2 ⟨[1, 2], 3⟩ (fun _ => 1) (fun _ => 0) ⟨[1], [1], [2], 0⟩ 10
     (by decide) (by decide)⟩

/-! ### Claim C4: behaviour of the policy-driven solver on oracle failures
and on invalid actions.

`get_ai_win_probability` contains no `try`/`except`, so an exception
raised by the oracle propagates to the caller.  This effectful behaviour
is modelled by `get_ai_win_probabilityE1`, the same recursion with the
oracle returning `Except`: an `error` short-circuits exactly where Python
would unwind.  The action test itself is `if action_index == 0 ... else`,
modelled verbatim below. -/

def get_ai_win_probabilityE1 (cfg : Config1) (agent : List ℚ → Except String Nat) :
    Nat → GameState → Except String ℚ
  | 0, _ => .ok 0
  | fuel+1, s =>
    if (is_game_over1 cfg s).1 then .ok ((is_game_over1 cfg s).2.getD 0)
    else if s.turn = 1 then
      ((np_unique s.deck).mapM fun card =>
        (get_ai_win_probabilityE1 cfg agent fuel (dealer_hit_state s card)).map
          fun v => draw_prob s card * v).map List.sum
    else
      match agent (get_features1 cfg s) with
      | .error e => .error e
      | .ok a =>
        if a = 0 then get_ai_win_probabilityE1 cfg agent fuel (stay_state s)
        else
          ((np_unique s.deck).mapM fun card =>
            (get_ai_win_probabilityE1 cfg agent fuel (player_hit_state s card)).map
              fun v => draw_prob s card * v).map List.sum

/-- One-player effectful policy-driven solver run with sufficient fuel. -/
def ai_valueE1 (cfg : Config1) (agent : List ℚ → Except String Nat)
    (s : GameState) : Except String ℚ :=
  get_ai_win_probabilityE1 cfg agent (s.deck.length + 2) s

/-- C4 counterexample: at a concrete player-turn state, an oracle that
returns the invalid action index 2 is not treated as a fatal error: the
solver returns the same probability as with the always-hit oracle, and a
probability different from the always-stay oracle — action 2 is silently
treated as the valid action Hit. -/
theorem C4_counterexample :
    ai_value1 ⟨[], 4, 1⟩ (fun _ => 2) ⟨[1], [2, 2], [4], 0⟩ = 0 ∧
    ai_value1 ⟨[], 4, 1⟩ (fun _ => 1) ⟨[1], [2, 2], [4], 0⟩ = 0 ∧
    ai_value1 ⟨[], 4, 1⟩ (fun _ => 0) ⟨[1], [2, 2], [4], 0⟩ = 1 ∧
    ai_value1 ⟨[], 4, 1⟩ (fun _ => 2) ⟨[1], [2, 2], [4], 0⟩
      = ai_value1 ⟨[], 4, 1⟩ (fun _ => 1) ⟨[1], [2, 2], [4], 0⟩ ∧
    ai_value1 ⟨[], 4, 1⟩ (fun _ => 2) ⟨[1], [2, 2], [4], 0⟩
      ≠ ai_value1 ⟨[], 4, 1⟩ (fun _ => 0) ⟨[1], [2, 2], [4], 0⟩ := by
  have hu : np_unique ((⟨[1], [2, 2], [4], 0⟩ : GameState).deck) = [4] := rfl
  have e2 : ai_value1 ⟨[], 4, 1⟩ (fun _ => 2) ⟨[1], [2, 2], [4], 0⟩ = 0 := by
    rw [ai_value1_step_player_hit _ _ _ rfl (by decide) (by decide), hu]
    simp only [List.map_cons, List.map_nil, List.sum_cons, List.sum_nil]
    rw [ai_value1_terminal _ _ _ (by decide)]
    simp +decide [is_game_over1, player_hit_state]
  have e1 : ai_value1 ⟨[], 4, 1⟩ (fun _ => 1) ⟨[1], [2, 2], [4], 0⟩ = 0 := by
    rw [ai_value1_step_player_hit _ _ _ rfl (by decide) (by decide), hu]
    simp only [List.map_cons, List.map_nil, List.sum_cons, List.sum_nil]
    rw [ai_value1_terminal _ _ _ (by decide)]
    simp +decide [is_game_over1, player_hit_state]
  have e0 : ai_value1 ⟨[], 4, 1⟩ (fun _ => 0) ⟨[1], [2, 2], [4], 0⟩ = 1 := by
    rw [ai_value1_step_player_stay _ _ _ rfl (by decide) rfl]
    rw [ai_value1_terminal _ _ _ (by decide)]
    simp +decide [is_game_over1, stay_state]
  refine ⟨e2, e1, e0, by rw [e2, e1], by rw [e2, e0]; norm_num⟩

/-- The two-player policy-driven solver with the oracle queries modelled
effectfully: `get_ai_win_probability` of
`two_player_blackjack/win_probability_analysis.py` contains no
`try`/`except` either, so a failure of the dealer agent (queried first at
a dealer turn) or of the player agent (queried first at a player turn)
propagates to the caller.  The action test is again `== 0` vs `else`. -/
def get_ai_win_probabilityE2 (cfg : Config2) (pa da : List ℚ → Except String Nat) :
    Nat → GameState → Except String (ℚ × ℚ × ℚ)
  | 0, _ => .ok (0, 0, 0)
  | fuel+1, s =>
    if (is_game_over2 cfg s).1 then
      .ok ((is_game_over2 cfg s).2.getD 0, (is_game_over2 cfg s).2.getD 0,
        (is_game_over2 cfg s).2.getD 0)
    else if s.turn = 1 then
      match da (get_features2 cfg s) with
      | .error e => .error e
      | .ok a =>
        (get_ai_win_probabilityE2 cfg pa da fuel (stay_state s)).bind fun stay =>
        (((np_unique s.deck).mapM fun card =>
          (get_ai_win_probabilityE2 cfg pa da fuel (dealer_hit_state s card)).map
            fun v => (draw_prob s card * v.1, draw_prob s card * v.2.1,
              draw_prob s card * v.2.2)).map
          fun vals =>
            ( (if a = 0 then stay.1 else (vals.map fun v => v.1).sum),
              1/2 * stay.2.1 + 1/2 * ((vals.map fun v => v.2.1).sum),
              (if a = 0 then stay.2.2 else (vals.map fun v => v.2.2).sum) ))
    else
      match pa (get_features2 cfg s) with
      | .error e => .error e
      | .ok a =>
        (get_ai_win_probabilityE2 cfg pa da fuel (stay_state s)).bind fun stay =>
        (((np_unique s.deck).mapM fun card =>
          (get_ai_win_probabilityE2 cfg pa da fuel (player_hit_state s card)).map
            fun v => (draw_prob s card * v.1, draw_prob s card * v.2.1,
              draw_prob s card * v.2.2)).map
          fun vals =>
            ( (if a = 0 then stay.1 else (vals.map fun v => v.1).sum),
              (if a = 0 then stay.2.1 else (vals.map fun v => v.2.1).sum),
              1/2 * stay.2.2 + 1/2 * ((vals.map fun v => v.2.2).sum) ))

/-- Two-player effectful policy-driven solver run with sufficient fuel. -/
def ai_valueE2 (cfg : Config2) (pa da : List ℚ → Except String Nat)
    (s : GameState) : Except String (ℚ × ℚ × ℚ) :=
  get_ai_win_probabilityE2 cfg pa da (s.deck.length + 3) s

/-- C4 as amended: in both variants, the policy-driven solver propagates
an oracle failure (no handler, no retry, no default) — in the two-player
variant for both the player-agent query at a player turn and the
dealer-agent query at a dealer turn — but it does not validate a
returned action: every branch tests only `action_index == 0`, so any
other returned index — including invalid ones such as 2 — is silently
treated as Hit. -/
theorem C4_amended_failure_propagates_invalid_action_is_hit :
    (∀ (cfg : Config1) (agent : List ℚ → Except String Nat) (s : GameState) (e : String),
      s.turn = 0 → (is_game_over1 cfg s).1 = false →
      agent (get_features1 cfg s) = .error e →
      ai_valueE1 cfg agent s = .error e) ∧
    (∀ (cfg : Config1) (agent : List ℚ → Nat) (s : GameState),
      s.turn = 0 → (is_game_over1 cfg s).1 = false →
      agent (get_features1 cfg s) ≠ 0 →
      ai_value1 cfg agent s =
        ((np_unique s.deck).map fun card =>
          draw_prob s card * ai_value1 cfg agent (player_hit_state s card)).sum) ∧
    (∀ (cfg : Config2) (pa da : List ℚ → Except String Nat) (s : GameState) (e : String),
      s.turn = 0 → (is_game_over2 cfg s).1 = false →
      pa (get_features2 cfg s) = .error e →
      ai_valueE2 cfg pa da s = .error e) ∧
    (∀ (cfg : Config2) (pa da : List ℚ → Except String Nat) (s : GameState) (e : String),
      s.turn = 1 → (is_game_over2 cfg s).1 = false →
      da (get_features2 cfg s) = .error e →
      ai_valueE2 cfg pa da s = .error e) ∧
    (∀ (cfg : Config2) (pa da : List ℚ → Nat) (s : GameState),
      s.turn = 0 → (is_game_over2 cfg s).1 = false →
      pa (get_features2 cfg s) ≠ 0 →
      ai_value2 cfg pa da s =
        ( ((np_unique s.deck).map fun card =>
            draw_prob s card * (ai_value2 cfg pa da (player_hit_state s card)).1).sum,
          ((np_unique s.deck).map fun card =>
            draw_prob s card * (ai_value2 cfg pa da (player_hit_state s card)).2.1).sum,
          1/2 * (ai_value2 cfg pa da (stay_state s)).2.2
            + 1/2 * (((np_unique s.deck).map fun card =>
                draw_prob s card * (ai_value2 cfg pa da (player_hit_state s card)).2.2).sum) )) ∧
    (∀ (cfg : Config2) (pa da : List ℚ → Nat) (s : GameState),
      s.turn = 1 → (is_game_over2 cfg s).1 = false →
      da (get_features2 cfg s) ≠ 0 →
      ai_value2 cfg pa da s =
        ( ((np_unique s.deck).map fun card =>
            draw_prob s card * (ai_value2 cfg pa da (dealer_hit_state s card)).1).sum,
          1/2 * (ai_value2 cfg pa da (stay_state s)).2.1
            + 1/2 * (((np_unique s.deck).map fun card =>
                draw_prob s card * (ai_value2 cfg pa da (dealer_hit_state s card)).2.1).sum),
          ((np_unique s.deck).map fun card =>
            draw_prob s card * (ai_value2 cfg pa da (dealer_hit_state s card)).2.2).sum )) := by
  refine ⟨?_, ?_, ?_, ?_, ?_, ?_⟩
  · intro cfg agent s e h0 hnt ha
    have hL : s.deck.length + 2 = (s.deck.length + 1) + 1 := rfl
    have h1 : ¬ s.turn = 1 := by omega
    simp only [ai_valueE1]
    rw [hL]
    simp only [get_ai_win_probabilityE1, hnt, Bool.false_eq_true, if_false, h1, ha]
  · intro cfg agent s h0 hnt ha
    exact ai_value1_step_player_hit cfg agent s h0 hnt ha
  · intro cfg pa da s e h0 hnt ha
    have hL : s.deck.length + 3 = (s.deck.length + 2) + 1 := rfl
    have h1 : ¬ s.turn = 1 := by omega
    simp only [ai_valueE2]
    rw [hL]
    simp only [get_ai_win_probabilityE2, hnt, Bool.false_eq_true, if_false, h1, ha]
  · intro cfg pa da s e h1 hnt ha
    have hL : s.deck.length + 3 = (s.deck.length + 2) + 1 := rfl
    simp only [ai_valueE2]
    rw [hL]
    simp only [get_ai_win_probabilityE2, hnt, Bool.false_eq_true, if_false, h1, if_true, ha]
  · intro cfg pa da s h0 hnt ha
    rw [ai_value2_step_player cfg pa da s h0 hnt, if_neg ha, if_neg ha]
  · intro cfg pa da s h1 hnt ha
    rw [ai_value2_step_dealer cfg pa da s h1 hnt, if_neg ha, if_neg ha]

/-- Witness for the amended C4 at concrete states of both variants: a
failing oracle's error is returned unchanged (player- and dealer-turn
queries alike), and the invalid action 2 (resp. 7) selects the hit
branch. -/
theorem C4_witness :
    ai_valueE1 ⟨[], 4, 1⟩ (fun _ => .error "oracle failed") ⟨[1], [2, 2], [4], 0⟩
      = .error "oracle failed" ∧
    ai_value1 ⟨[], 4, 1⟩ (fun _ => 2) ⟨[1], [2, 2], [4], 0⟩ =
      ((np_unique (GameState.deck ⟨[1], [2, 2], [4], 0⟩)).map fun card =>
        draw_prob ⟨[1], [2, 2], [4], 0⟩ card *
          ai_value1 ⟨[], 4, 1⟩ (fun _ => 2)
            (player_hit_state ⟨[1], [2, 2], [4], 0⟩ card)).sum ∧
    ai_valueE2 ⟨[], 4⟩ (fun _ => .error "oracle failed") (fun _ => .ok 0)
        ⟨[1], [2, 2], [4], 0⟩
      = .error "oracle failed" ∧
    ai_valueE2 ⟨[], 4⟩ (fun _ => .ok 0) (fun _ => .error "oracle failed")
        ⟨[1], [2, 2], [4], 1⟩
      = .error "oracle failed" ∧
    ai_value2 ⟨[], 4⟩ (fun _ => 2) (fun _ => 0) ⟨[1], [2, 2], [4], 0⟩ =
      ( ((np_unique (GameState.deck ⟨[1], [2, 2], [4], 0⟩)).map fun card =>
          draw_prob ⟨[1], [2, 2], [4], 0⟩ card *
            (ai_value2 ⟨[], 4⟩ (fun _ => 2) (fun _ => 0)
              (player_hit_state ⟨[1], [2, 2], [4], 0⟩ card)).1).sum,
        ((np_unique (GameState.deck ⟨[1], [2, 2], [4], 0⟩)).map fun card =>
          draw_prob ⟨[1], [2, 2], [4], 0⟩ card *
            (ai_value2 ⟨[], 4⟩ (fun _ => 2) (fun _ => 0)
              (player_hit_state ⟨[1], [2, 2], [4], 0⟩ card)).2.1).sum,
        1/2 * (ai_value2 ⟨[], 4⟩ (fun _ => 2) (fun _ => 0)
            (stay_state ⟨[1], [2, 2], [4], 0⟩)).2.2
          + 1/2 * (((np_unique (GameState.deck ⟨[1], [2, 2], [4], 0⟩)).map fun card =>
              draw_prob ⟨[1], [2, 2], [4], 0⟩ card *
                (ai_value2 ⟨[], 4⟩ (fun _ => 2) (fun _ => 0)
                  (player_hit_state ⟨[1], [2, 2], [4], 0⟩ card)).2.2).sum) ) ∧
    ai_value2 ⟨[], 4⟩ (fun _ => 0) (fun _ => 7) ⟨[1], [2, 2], [4], 1⟩ =
      ( ((np_unique (GameState.deck ⟨[1], [2, 2], [4], 1⟩)).map fun card =>
          draw_prob ⟨[1], [2, 2], [4], 1⟩ card *
            (ai_value2 ⟨[], 4⟩ (fun _ => 0) (fun _ => 7)
              (dealer_hit_state ⟨[1], [2, 2], [4], 1⟩ card)).1).sum,
        1/2 * (ai_value2 ⟨[], 4⟩ (fun _ => 0) (fun _ => 7)
            (stay_state ⟨[1], [2, 2], [4], 1⟩)).2.1
          + 1/2 * (((np_unique (GameState.deck ⟨[1], [2, 2], [4], 1⟩)).map fun card =>
              draw_prob ⟨[1], [2, 2], [4], 1⟩ card *
                (ai_value2 ⟨[], 4⟩ (fun _ => 0) (fun _ => 7)
                  (dealer_hit_state ⟨[1], [2, 2], [4], 1⟩ card)).2.1).sum),
        ((np_unique (GameState.deck ⟨[1], [2, 2], [4], 1⟩)).map fun card =>
          draw_prob ⟨[1], [2, 2], [4], 1⟩ card *
            (ai_value2 ⟨[], 4⟩ (fun _ => 0) (fun _ => 7)
              (dealer_hit_state ⟨[1], [2, 2], [4], 1⟩ card)).2.2).sum ) :=
  ⟨C4_amended_failure_propagates_invalid_action_is_hit.1 ⟨[], 4, 1⟩
     (fun _ => .error "oracle failed") ⟨[1], [2, 2], [4], 0⟩ "oracle failed"
     rfl (by decide) rfl,
   C4_amended_failure_propagates_invalid_action_is_hit.2.1 ⟨[], 4, 1⟩
     (fun _ => 2) ⟨[1], [2, 2], [4], 0⟩ rfl (by decide) (by decide),
   C4_amended_failure_propagates_invalid_action_is_hit.2.2.1 ⟨[], 4⟩
     (fun _ => .error "oracle failed") (fun _ => .ok 0) ⟨[1], [2, 2], [4], 0⟩
     "oracle failed" rfl (by decide) rfl,
   C4_amended_failure_propagates_invalid_action_is_hit.2.2.2.1 ⟨[], 4⟩
     (fun _ => .ok 0) (fun _ => .error "oracle failed") ⟨[1], [2, 2], [4], 1⟩
     "oracle failed" rfl (by decide) rfl,
   C4_amended_failure_propagates_invalid_action_is_hit.2.2.2.2.1 ⟨[], 4⟩
     (fun _ => 2) (fun _ => 0) ⟨[1], [2, 2], [4], 0⟩ rfl (by decide) (by decide),
   C4_amended_failure_propagates_invalid_action_is_hit.2.2.2.2.2 ⟨[], 4⟩
     (fun _ => 0) (fun _ => 7) ⟨[1], [2, 2], [4], 1⟩ rfl (by decide) (by decide)⟩

/-! ### Claim C7: `get_all_initial_states` and its probabilities.

`itertools.permutations(deck_copy, r=3)` enumerates all ordered length-3
selections of distinct positions; cards with equal face value are counted
with full multiplicity.  `selections l` pairs each position's card with
the remaining list; `perms3` nests it three deep. -/

def selections {α : Type} : List α → List (α × List α)
  | [] => []
  | a :: rest => (a, rest) :: (selections rest).map fun p => (p.1, a :: p.2)

/-- All ordered 3-permutations (by position) of the list `l`, as produced
by `permutations(game.deck_copy, r=3)`. -/
def perms3 (l : List Nat) : List (Nat × Nat × Nat) :=
  ((selections l).map fun p1 =>
    ((selections p1.2).map fun p2 =>
      (selections p2.2).map fun p3 => (p1.1, p2.1, p3.1)).flatten).flatten

/-- The canonical triple `tuple([dealer_card] + sorted((p1, p2)))` formed
for each permutation. -/
def initial_triples (l : List Nat) : List (Nat × Nat × Nat) :=
  (perms3 l).map fun t => (t.1, min t.2.1 t.2.2, max t.2.1 t.2.2)

/-- `get_all_initial_states(config)` of
`one_player_blackjack/win_probability_analysis.py`: one entry per distinct
canonical triple (the Python dict keys), carrying the game instance with
the three cards removed from the full deck and the triple's occurrence
count divided by the total number of 3-permutations.  (At runtime the
deck order is a shuffle; only its multiset matters, so the deck is
modelled as `deck_copy` with the three dealt cards erased.) -/
def get_all_initial_states (cfg : Config1) : List (GameState × ℚ) :=
  (initial_triples cfg.deck_copy).dedup.map fun t =>
    ( { dealer_hand := [t.1], player_hand := [t.2.1, t.2.2],
        deck := ((cfg.deck_copy.erase t.1).erase t.2.1).erase t.2.2, turn := 0 },
      ((initial_triples cfg.deck_copy).count t : ℚ)
        / ((perms3 cfg.deck_copy).length : ℚ) )

lemma length_flatten_of_const {β : Type} (M : List (List β)) (k : Nat)
    (h : ∀ x ∈ M, x.length = k) : M.flatten.length = M.length * k := by
  rw [List.length_flatten, List.map_congr_left h]
  induction M with
  | nil => simp
  | cons a M ihM =>
    simp only [List.map_cons, List.sum_cons, List.length_cons]
    rw [ihM (fun x hx => h x (List.mem_cons_of_mem a hx))]
    ring

lemma selections_length {α : Type} (l : List α) : (selections l).length = l.length := by
  induction l with
  | nil => rfl
  | cons a rest ih => simp [selections, ih]

lemma selections_rest_length {α : Type} (l : List α) :
    ∀ p ∈ selections l, p.2.length + 1 = l.length := by
  induction l with
  | nil => intro p hp; cases hp
  | cons a rest ih =>
    intro p hp
    rcases List.mem_cons.mp hp with h | h
    · subst h; rfl
    · obtain ⟨q, hq, rfl⟩ := List.mem_map.mp h
      have := ih q hq
      simp only [List.length_cons]
      omega

lemma perms3_length (l : List Nat) :
    (perms3 l).length = l.length * ((l.length - 1) * (l.length - 2)) := by
  unfold perms3
  rw [length_flatten_of_const _ ((l.length - 1) * (l.length - 2)) ?_, List.length_map,
    selections_length]
  intro x hx
  obtain ⟨p1, hp1, rfl⟩ := List.mem_map.mp hx
  have h1 := selections_rest_length l p1 hp1
  rw [length_flatten_of_const _ (l.length - 2) ?_, List.length_map, selections_length]
  · have h1a : p1.2.length = l.length - 1 := by omega
    rw [h1a]
  · intro y hy
    obtain ⟨p2, hp2, rfl⟩ := List.mem_map.mp hy
    have h2 := selections_rest_length p1.2 p2 hp2
    rw [List.length_map, selections_length]
    omega

/-- C7: for every deck of at least three cards, the occurrence
probabilities attached to the initial states returned by
`get_all_initial_states` sum to exactly 1: each canonical triple's count
over all ordered 3-permutations of the full deck, divided by the total
number of such permutations, summed over all distinct triples, equals 1
in exact rational arithmetic. -/
theorem C7_initial_probabilities_sum_to_one :
    ∀ (cfg : Config1), 3 ≤ cfg.deck_copy.length →
      ((get_all_initial_states cfg).map Prod.snd).sum = 1 := by
  intro cfg h3
  have hNpos : 0 < (perms3 cfg.deck_copy).length := by
    rw [perms3_length]
    refine Nat.mul_pos (by omega) (Nat.mul_pos (by omega) (by omega))
  have hN : ((perms3 cfg.deck_copy).length : ℚ) ≠ 0 := by
    exact_mod_cast Nat.pos_iff_ne_zero.mp hNpos
  simp only [get_all_initial_states, List.map_map]
  show ((initial_triples cfg.deck_copy).dedup.map fun t =>
      ((initial_triples cfg.deck_copy).count t : ℚ)
        / ((perms3 cfg.deck_copy).length : ℚ)).sum = 1
  rw [show (fun t : Nat × Nat × Nat =>
        ((initial_triples cfg.deck_copy).count t : ℚ)
          / ((perms3 cfg.deck_copy).length : ℚ))
      = fun t => (((perms3 cfg.deck_copy).length : ℚ))⁻¹
          * ((initial_triples cfg.deck_copy).count t : ℚ) from by
    funext t; rw [div_eq_mul_inv, mul_comm]]
  rw [List.sum_map_mul_left]
  have hsum : ((initial_triples cfg.deck_copy).dedup.map fun t =>
        (((initial_triples cfg.deck_copy).count t : ℕ) : ℚ)).sum
      = (((initial_triples cfg.deck_copy).length : ℕ) : ℚ) := by
    rw [show ((initial_triples cfg.deck_copy).dedup.map fun t =>
          (((initial_triples cfg.deck_copy).count t : ℕ) : ℚ))
        = ((initial_triples cfg.deck_copy).dedup.map fun t =>
            (initial_triples cfg.deck_copy).count t).map (fun n : ℕ => (n : ℚ)) from by
      rw [List.map_map]; rfl]
    rw [← Nat.cast_list_sum,
      @lawful_beq_subsingleton (Nat × Nat × Nat) instBEqProd instBEqOfDecidableEq
        (by infer_instance)
        (@LawfulBEq.mk _ instBEqOfDecidableEq (fun h => of_decide_eq_true h)
          (decide_eq_true rfl)),
      List.sum_map_count_dedup_eq_length]
  rw [hsum, show (initial_triples cfg.deck_copy).length = (perms3 cfg.deck_copy).length from
    List.length_map _ _]
  exact inv_mul_cancel₀ hN

/-- Witness for C7 on the concrete deck `[1, 2, 3, 4]`. -/
theorem C7_witness :
    ((get_all_initial_states ⟨[1, 2, 3, 4], 5, 4⟩).map Prod.snd).sum = 1 :=
  C7_initial_probabilities_sum_to_one ⟨[1, 2, 3, 4], 5, 4⟩ (by decide)

/-! ### Claim C9: no division by zero in `draw_prob`.

`draw_prob` divides by `len(game.deck)`.  The checked variants below
replace it by `draw_prob_checked`, which fails (returns `none`) exactly
when the deck is empty, and thread the failure through the whole
recursion.  Proving the checked solvers always return `some` of the
unchecked value shows every `draw_prob` call happens with a non-empty
deck: each call site sits inside the iteration over
`np.unique(game_state.deck)`. -/

def draw_prob_checked (s : GameState) (card : Nat) : Option ℚ :=
  if s.deck.length = 0 then none else some (draw_prob s card)

def get_theoretical_win_probability_checked1 (cfg : Config1) :
    Nat → GameState → Option (ℚ × ℚ)
  | 0, _ => some (0, 0)
  | fuel+1, s =>
    if (is_game_over1 cfg s).1 then
      some ((is_game_over1 cfg s).2.getD 0, (is_game_over1 cfg s).2.getD 0)
    else if s.turn = 1 then
      (((np_unique s.deck).mapM fun card =>
        (draw_prob_checked s card).bind fun p =>
          (get_theoretical_win_probability_checked1 cfg fuel (dealer_hit_state s card)).map
            fun v => (p * v.1, p * v.2)).map
        fun vals => ((vals.map Prod.fst).sum, (vals.map Prod.snd).sum))
    else
      (get_theoretical_win_probability_checked1 cfg fuel (stay_state s)).bind fun stay =>
      (((np_unique s.deck).mapM fun card =>
        (draw_prob_checked s card).bind fun p =>
          (get_theoretical_win_probability_checked1 cfg fuel (player_hit_state s card)).map
            fun v => (p * v.1, p * v.2)).map
        fun vals =>
          ( max stay.1 ((vals.map Prod.fst).sum),
            1/2 * stay.2 + 1/2 * ((vals.map Prod.snd).sum) ))

def get_ai_win_probability_checked1 (cfg : Config1) (agent : List ℚ → Nat) :
    Nat → GameState → Option ℚ
  | 0, _ => some 0
  | fuel+1, s =>
    if (is_game_over1 cfg s).1 then some ((is_game_over1 cfg s).2.getD 0)
    else if s.turn = 1 then
      (((np_unique s.deck).mapM fun card =>
        (draw_prob_checked s card).bind fun p =>
          (get_ai_win_probability_checked1 cfg agent fuel (dealer_hit_state s card)).map
            fun v => p * v).map List.sum)
    else if agent (get_features1 cfg s) = 0 then
      get_ai_win_probability_checked1 cfg agent fuel (stay_state s)
    else
      (((np_unique s.deck).mapM fun card =>
        (draw_prob_checked s card).bind fun p =>
          (get_ai_win_probability_checked1 cfg agent fuel (player_hit_state s card)).map
            fun v => p * v).map List.sum)

lemma mapM_option_eq_map {α β : Type} (g : α → Option β) (g' : α → β) (l : List α)
    (h : ∀ a ∈ l, g a = some (g' a)) : l.mapM g = some (l.map g') := by
  induction l with
  | nil => rfl
  | cons a l ih =>
    rw [List.mapM_cons, h a (List.mem_cons_self a l),
      ih fun b hb => h b (List.mem_cons_of_mem a hb)]
    rfl

lemma length_ne_zero_of_mem_np_unique {d : List Nat} {c : Nat}
    (hc : c ∈ np_unique d) : ¬ d.length = 0 := by
  have h1 := erase_length_of_mem_np_unique hc
  omega

lemma thChecked1_eq (cfg : Config1) : ∀ (f : Nat) (s : GameState),
    get_theoretical_win_probability_checked1 cfg f s
      = some (get_theoretical_win_probability1 cfg f s) := by
  intro f
  induction f with
  | zero => intro s; rfl
  | succ f ih =>
    intro s
    rw [th1_succ]
    simp only [get_theoretical_win_probability_checked1]
    by_cases hgo : (is_game_over1 cfg s).1
    · simp [hgo]
    · simp only [hgo, Bool.false_eq_true, if_false]
      by_cases h1 : s.turn = 1
      · simp only [h1, if_true]
        rw [mapM_option_eq_map _
          (fun card =>
            ( draw_prob s card *
                (get_theoretical_win_probability1 cfg f (dealer_hit_state s card)).1,
              draw_prob s card *
                (get_theoretical_win_probability1 cfg f (dealer_hit_state s card)).2 ))
          _ ?_]
        · simp [List.map_map, Function.comp_def]
        · intro c hc
          simp [draw_prob_checked, length_ne_zero_of_mem_np_unique hc, ih]
      · simp only [h1, if_false]
        rw [ih (stay_state s)]
        rw [mapM_option_eq_map _
          (fun card =>
            ( draw_prob s card *
                (get_theoretical_win_probability1 cfg f (player_hit_state s card)).1,
              draw_prob s card *
                (get_theoretical_win_probability1 cfg f (player_hit_state s card)).2 ))
          _ ?_]
        · simp [List.map_map, Function.comp_def]
        · intro c hc
          simp [draw_prob_checked, length_ne_zero_of_mem_np_unique hc, ih]

lemma aiChecked1_eq (cfg : Config1) (agent : List ℚ → Nat) : ∀ (f : Nat) (s : GameState),
    get_ai_win_probability_checked1 cfg agent f s
      = some (get_ai_win_probability1 cfg agent f s) := by
  intro f
  induction f with
  | zero => intro s; rfl
  | succ f ih =>
    intro s
    rw [ai1_succ]
    simp only [get_ai_win_probability_checked1]
    by_cases hgo : (is_game_over1 cfg s).1
    · simp [hgo]
    · simp only [hgo, Bool.false_eq_true, if_false]
      by_cases h1 : s.turn = 1
      · simp only [h1, if_true]
        rw [mapM_option_eq_map _
          (fun card =>
            draw_prob s card * get_ai_win_probability1 cfg agent f (dealer_hit_state s card))
          _ ?_]
        · simp
        · intro c hc
          simp [draw_prob_checked, length_ne_zero_of_mem_np_unique hc, ih]
      · simp only [h1, if_false]
        by_cases ha : agent (get_features1 cfg s) = 0
        · simp only [ha, if_true]
          exact ih (stay_state s)
        · simp only [ha, if_false]
          rw [mapM_option_eq_map _
            (fun card =>
              draw_prob s card * get_ai_win_probability1 cfg agent f (player_hit_state s card))
            _ ?_]
          · simp
          · intro c hc
            simp [draw_prob_checked, length_ne_zero_of_mem_np_unique hc, ih]

def get_theoretical_win_probability_checked2 (cfg : Config2) :
    Nat → GameState → Option (ℚ × ℚ × ℚ × ℚ)
  | 0, _ => some (0, 0, 0, 0)
  | fuel+1, s =>
    if (is_game_over2 cfg s).1 then
      some ((is_game_over2 cfg s).2.getD 0, (is_game_over2 cfg s).2.getD 0,
        (is_game_over2 cfg s).2.getD 0, (is_game_over2 cfg s).2.getD 0)
    else if s.turn = 1 then
      (get_theoretical_win_probability_checked2 cfg fuel (stay_state s)).bind fun stay =>
      (((np_unique s.deck).mapM fun card =>
        (draw_prob_checked s card).bind fun p =>
          (get_theoretical_win_probability_checked2 cfg fuel (dealer_hit_state s card)).map
            fun v => (p * v.1, p * v.2.1, p * v.2.2.1, p * v.2.2.2)).map
        fun vals =>
          ( min stay.1 ((vals.map fun v => v.1).sum),
            1/2 * stay.2.1 + 1/2 * ((vals.map fun v => v.2.1).sum),
            min stay.2.2.1 ((vals.map fun v => v.2.2.1).sum),
            1/2 * stay.2.2.2 + 1/2 * ((vals.map fun v => v.2.2.2).sum) ))
    else
      (get_theoretical_win_probability_checked2 cfg fuel (stay_state s)).bind fun stay =>
      (((np_unique s.deck).mapM fun card =>
        (draw_prob_checked s card).bind fun p =>
          (get_theoretical_win_probability_checked2 cfg fuel (player_hit_state s card)).map
            fun v => (p * v.1, p * v.2.1, p * v.2.2.1, p * v.2.2.2)).map
        fun vals =>
          ( max stay.1 ((vals.map fun v => v.1).sum),
            max stay.2.1 ((vals.map fun v => v.2.1).sum),
            1/2 * stay.2.2.1 + 1/2 * ((vals.map fun v => v.2.2.1).sum),
            1/2 * stay.2.2.2 + 1/2 * ((vals.map fun v => v.2.2.2).sum) ))

def get_ai_win_probability_checked2 (cfg : Config2) (pa da : List ℚ → Nat) :
    Nat → GameState → Option (ℚ × ℚ × ℚ)
  | 0, _ => some (0, 0, 0)
  | fuel+1, s =>
    if (is_game_over2 cfg s).1 then
      some ((is_game_over2 cfg s).2.getD 0, (is_game_over2 cfg s).2.getD 0,
        (is_game_over2 cfg s).2.getD 0)
    else if s.turn = 1 then
      (get_ai_win_probability_checked2 cfg pa da fuel (stay_state s)).bind fun stay =>
      (((np_unique s.deck).mapM fun card =>
        (draw_prob_checked s card).bind fun p =>
          (get_ai_win_probability_checked2 cfg pa da fuel (dealer_hit_state s card)).map
            fun v => (p * v.1, p * v.2.1, p * v.2.2)).map
        fun vals =>
          ( (if da (get_features2 cfg s) = 0 then stay.1 else (vals.map fun v => v.1).sum),
            1/2 * stay.2.1 + 1/2 * ((vals.map fun v => v.2.1).sum),
            (if da (get_features2 cfg s) = 0 then stay.2.2
             else (vals.map fun v => v.2.2).sum) ))
    else
      (get_ai_win_probability_checked2 cfg pa da fuel (stay_state s)).bind fun stay =>
      (((np_unique s.deck).mapM fun card =>
        (draw_prob_checked s card).bind fun p =>
          (get_ai_win_probability_checked2 cfg pa da fuel (player_hit_state s card)).map
            fun v => (p * v.1, p * v.2.1, p * v.2.2)).map
        fun vals =>
          ( (if pa (get_features2 cfg s) = 0 then stay.1 else (vals.map fun v => v.1).sum),
            (if pa (get_features2 cfg s) = 0 then stay.2.1
             else (vals.map fun v => v.2.1).sum),
            1/2 * stay.2.2 + 1/2 * ((vals.map fun v => v.2.2).sum) ))

lemma thChecked2_eq (cfg : Config2) : ∀ (f : Nat) (s : GameState),
    get_theoretical_win_probability_checked2 cfg f s
      = some (get_theoretical_win_probability2 cfg f s) := by
  intro f
  induction f with
  | zero => intro s; rfl
  | succ f ih =>
    intro s
    rw [th2_succ]
    simp only [get_theoretical_win_probability_checked2]
    by_cases hgo : (is_game_over2 cfg s).1
    · simp [hgo]
    · simp only [hgo, Bool.false_eq_true, if_false]
      by_cases h1 : s.turn = 1
      · simp only [h1, if_true]
        rw [ih (stay_state s)]
        rw [mapM_option_eq_map _
          (fun card =>
            ( draw_prob s card *
                (get_theoretical_win_probability2 cfg f (dealer_hit_state s card)).1,
              draw_prob s card *
                (get_theoretical_win_probability2 cfg f (dealer_hit_state s card)).2.1,
              draw_prob s card *
                (get_theoretical_win_probability2 cfg f (dealer_hit_state s card)).2.2.1,
              draw_prob s card *
                (get_theoretical_win_probability2 cfg f (dealer_hit_state s card)).2.2.2 ))
          _ ?_]
        · simp [List.map_map, Function.comp_def]
        · intro c hc
          simp [draw_prob_checked, length_ne_zero_of_mem_np_unique hc, ih]
      · simp only [h1, if_false]
        rw [ih (stay_state s)]
        rw [mapM_option_eq_map _
          (fun card =>
            ( draw_prob s card *
                (get_theoretical_win_probability2 cfg f (player_hit_state s card)).1,
              draw_prob s card *
                (get_theoretical_win_probability2 cfg f (player_hit_state s card)).2.1,
              draw_prob s card *
                (get_theoretical_win_probability2 cfg f (player_hit_state s card)).2.2.1,
              draw_prob s card *
                (get_theoretical_win_probability2 cfg f (player_hit_state s card)).2.2.2 ))
          _ ?_]
        · simp [List.map_map, Function.comp_def]
        · intro c hc
          simp [draw_prob_checked, length_ne_zero_of_mem_np_unique hc, ih]

lemma aiChecked2_eq (cfg : Config2) (pa da : List ℚ → Nat) : ∀ (f : Nat) (s : GameState),
    get_ai_win_probability_checked2 cfg pa da f s
      = some (get_ai_win_probability2 cfg pa da f s) := by
  intro f
  induction f with
  | zero => intro s; rfl
  | succ f ih =>
    intro s
    rw [ai2_succ]
    simp only [get_ai_win_probability_checked2]
    by_cases hgo : (is_game_over2 cfg s).1
    · simp [hgo]
    · simp only [hgo, Bool.false_eq_true, if_false]
      by_cases h1 : s.turn = 1
      · simp only [h1, if_true]
        rw [ih (stay_state s)]
        rw [mapM_option_eq_map _
          (fun card =>
            ( draw_prob s card *
                (get_ai_win_probability2 cfg pa da f (dealer_hit_state s card)).1,
              draw_prob s card *
                (get_ai_win_probability2 cfg pa da f (dealer_hit_state s card)).2.1,
              draw_prob s card *
                (get_ai_win_probability2 cfg pa da f (dealer_hit_state s card)).2.2 ))
          _ ?_]
        · simp [List.map_map, Function.comp_def]
        · intro c hc
          simp [draw_prob_checked, length_ne_zero_of_mem_np_unique hc, ih]
      · simp only [h1, if_false]
        rw [ih (stay_state s)]
        rw [mapM_option_eq_map _
          (fun card =>
            ( draw_prob s card *
                (get_ai_win_probability2 cfg pa da f (player_hit_state s card)).1,
              draw_prob s card *
                (get_ai_win_probability2 cfg pa da f (player_hit_state s card)).2.1,
              draw_prob s card *
                (get_ai_win_probability2 cfg pa da f (player_hit_state s card)).2.2 ))
          _ ?_]
        · simp [List.map_map, Function.comp_def]
        · intro c hc
          simp [draw_prob_checked, length_ne_zero_of_mem_np_unique hc, ih]

/-- C9: in every solver recursion (analytical and policy-driven, both
variants), `draw_prob` is only ever invoked on states with a non-empty
deck: running the same recursion with the division guarded
(`draw_prob_checked` fails on an empty deck, and the failure propagates)
always succeeds and returns exactly the unchecked value, so the division
by `len(game.deck)` never divides by zero and no hit branch is taken
from an empty deck. -/
theorem C9_draw_prob_never_divides_by_zero :
    (∀ (cfg : Config1) (f : Nat) (s : GameState),
      get_theoretical_win_probability_checked1 cfg f s
        = some (get_theoretical_win_probability1 cfg f s)) ∧
    (∀ (cfg : Config1) (agent : List ℚ → Nat) (f : Nat) (s : GameState),
      get_ai_win_probability_checked1 cfg agent f s
        = some (get_ai_win_probability1 cfg agent f s)) ∧
    (∀ (cfg : Config2) (f : Nat) (s : GameState),
      get_theoretical_win_probability_checked2 cfg f s
        = some (get_theoretical_win_probability2 cfg f s)) ∧
    (∀ (cfg : Config2) (pa da : List ℚ → Nat) (f : Nat) (s : GameState),
      get_ai_win_probability_checked2 cfg pa da f s
        = some (get_ai_win_probability2 cfg pa da f s)) :=
  ⟨thChecked1_eq, aiChecked1_eq, thChecked2_eq, aiChecked2_eq⟩

/-! ### Claim C3: states with equal canonical representations are
outcome-equivalent -/

lemma rep_eq_iff {s1 s2 : GameState} :
    get_game_state_representation s1 = get_game_state_representation s2 ↔
      (s1.dealer_hand.sum = s2.dealer_hand.sum ∧
       s1.player_hand.sum = s2.player_hand.sum ∧
       s1.deck.Perm s2.deck ∧ s1.turn = s2.turn) := by
  unfold get_game_state_representation
  simp only [Prod.mk.injEq]
  constructor
  · rintro ⟨h1, h2, h3, h4⟩
    refine ⟨h1, h2, ?_, h4⟩
    have hp := List.perm_insertionSort (· ≤ ·) s2.deck
    rw [← h3] at hp
    exact (List.perm_insertionSort (· ≤ ·) s1.deck).symm.trans hp
  · rintro ⟨h1, h2, h3, h4⟩
    refine ⟨h1, h2, ?_, h4⟩
    exact List.eq_of_perm_of_sorted
      ((List.perm_insertionSort _ _).trans (h3.trans (List.perm_insertionSort _ _).symm))
      (List.sorted_insertionSort _ _) (List.sorted_insertionSort _ _)

lemma is_game_over1_congr (cfg : Config1) {s1 s2 : GameState}
    (h : get_game_state_representation s1 = get_game_state_representation s2) :
    is_game_over1 cfg s1 = is_game_over1 cfg s2 := by
  obtain ⟨h1, h2, _, h4⟩ := rep_eq_iff.mp h
  simp only [is_game_over1, h1, h2, h4]

lemma is_game_over2_congr (cfg : Config2) {s1 s2 : GameState}
    (h : get_game_state_representation s1 = get_game_state_representation s2) :
    is_game_over2 cfg s1 = is_game_over2 cfg s2 := by
  obtain ⟨h1, h2, _, h4⟩ := rep_eq_iff.mp h
  simp only [is_game_over2, h1, h2, h4]

lemma draw_prob_congr {s1 s2 : GameState} (h3 : s1.deck.Perm s2.deck) (c : Nat) :
    draw_prob s1 c = draw_prob s2 c := by
  unfold draw_prob
  rw [h3.count_eq, h3.length_eq]

lemma get_features1_congr (cfg : Config1) {s1 s2 : GameState}
    (h : get_game_state_representation s1 = get_game_state_representation s2) :
    get_features1 cfg s1 = get_features1 cfg s2 := by
  obtain ⟨h1, h2, h3, _⟩ := rep_eq_iff.mp h
  unfold get_features1
  rw [h1, h2, List.map_congr_left fun c _ => by rw [h3.count_eq, h3.length_eq]]

lemma get_features2_congr (cfg : Config2) {s1 s2 : GameState}
    (h : get_game_state_representation s1 = get_game_state_representation s2) :
    get_features2 cfg s1 = get_features2 cfg s2 := by
  obtain ⟨h1, h2, h3, _⟩ := rep_eq_iff.mp h
  unfold get_features2
  rw [h1, h2, List.map_congr_left fun c _ => by rw [h3.count_eq, h3.length_eq]]

lemma stay_state_rep_congr {s1 s2 : GameState}
    (h : get_game_state_representation s1 = get_game_state_representation s2) :
    get_game_state_representation (stay_state s1)
      = get_game_state_representation (stay_state s2) := by
  obtain ⟨h1, h2, h3, h4⟩ := rep_eq_iff.mp h
  exact rep_eq_iff.mpr ⟨by simpa [stay_state] using h1, by simpa [stay_state] using h2,
    by simpa [stay_state] using h3, by simp [stay_state, h4]⟩

lemma dealer_hit_state_rep_congr {s1 s2 : GameState}
    (h : get_game_state_representation s1 = get_game_state_representation s2) (c : Nat) :
    get_game_state_representation (dealer_hit_state s1 c)
      = get_game_state_representation (dealer_hit_state s2 c) := by
  obtain ⟨h1, h2, h3, h4⟩ := rep_eq_iff.mp h
  exact rep_eq_iff.mpr ⟨by simp [dealer_hit_state, List.sum_append, h1],
    by simpa [dealer_hit_state] using h2,
    by simpa [dealer_hit_state] using h3.erase c,
    by simpa [dealer_hit_state] using h4⟩

lemma player_hit_state_rep_congr {s1 s2 : GameState}
    (h : get_game_state_representation s1 = get_game_state_representation s2) (c : Nat) :
    get_game_state_representation (player_hit_state s1 c)
      = get_game_state_representation (player_hit_state s2 c) := by
  obtain ⟨h1, h2, h3, h4⟩ := rep_eq_iff.mp h
  exact rep_eq_iff.mpr ⟨by simpa [player_hit_state] using h1,
    by simp [player_hit_state, List.sum_append, h2],
    by simpa [player_hit_state] using h3.erase c,
    by simpa [player_hit_state] using h4⟩

lemma th1_rep_congr (cfg : Config1) : ∀ (f : Nat) {s1 s2 : GameState},
    get_game_state_representation s1 = get_game_state_representation s2 →
    get_theoretical_win_probability1 cfg f s1
      = get_theoretical_win_probability1 cfg f s2 := by
  intro f
  induction f with
  | zero => intro s1 s2 _; rfl
  | succ f ih =>
    intro s1 s2 h
    obtain ⟨h1, h2, h3, h4⟩ := rep_eq_iff.mp h
    rw [th1_succ, th1_succ, is_game_over1_congr cfg h, h4, np_unique_eq_of_perm h3]
    by_cases hgo : (is_game_over1 cfg s2).1
    · simp [hgo]
    · simp only [hgo, Bool.false_eq_true, if_false]
      by_cases ht : s2.turn = 1
      · simp only [ht, if_true, Prod.mk.injEq]
        constructor <;>
          exact congrArg List.sum (List.map_congr_left fun c _ => by
            rw [draw_prob_congr h3 c, ih (dealer_hit_state_rep_congr h c)])
      · simp only [ht, if_false]
        rw [ih (stay_state_rep_congr h)]
        simp only [Prod.mk.injEq]
        constructor <;>
          rw [List.map_congr_left fun c _ => by
            rw [draw_prob_congr h3 c, ih (player_hit_state_rep_congr h c)]]

lemma ai1_rep_congr (cfg : Config1) (agent : List ℚ → Nat) :
    ∀ (f : Nat) {s1 s2 : GameState},
    get_game_state_representation s1 = get_game_state_representation s2 →
    get_ai_win_probability1 cfg agent f s1 = get_ai_win_probability1 cfg agent f s2 := by
  intro f
  induction f with
  | zero => intro s1 s2 _; rfl
  | succ f ih =>
    intro s1 s2 h
    obtain ⟨h1, h2, h3, h4⟩ := rep_eq_iff.mp h
    rw [ai1_succ, ai1_succ, is_game_over1_congr cfg h, h4, np_unique_eq_of_perm h3,
      get_features1_congr cfg h]
    by_cases hgo : (is_game_over1 cfg s2).1
    · simp [hgo]
    · simp only [hgo, Bool.false_eq_true, if_false]
      by_cases ht : s2.turn = 1
      · simp only [ht, if_true]
        exact congrArg List.sum (List.map_congr_left fun c _ => by
          rw [draw_prob_congr h3 c, ih (dealer_hit_state_rep_congr h c)])
      · simp only [ht, if_false]
        by_cases ha : agent (get_features1 cfg s2) = 0
        · simp only [ha, if_true]
          exact ih (stay_state_rep_congr h)
        · simp only [ha, if_false]
          exact congrArg List.sum (List.map_congr_left fun c _ => by
            rw [draw_prob_congr h3 c, ih (player_hit_state_rep_congr h c)])

lemma th2_rep_congr (cfg : Config2) : ∀ (f : Nat) {s1 s2 : GameState},
    get_game_state_representation s1 = get_game_state_representation s2 →
    get_theoretical_win_probability2 cfg f s1
      = get_theoretical_win_probability2 cfg f s2 := by
  intro f
  induction f with
  | zero => intro s1 s2 _; rfl
  | succ f ih =>
    intro s1 s2 h
    obtain ⟨h1, h2, h3, h4⟩ := rep_eq_iff.mp h
    rw [th2_succ, th2_succ, is_game_over2_congr cfg h, h4, np_unique_eq_of_perm h3]
    by_cases hgo : (is_game_over2 cfg s2).1
    · simp [hgo]
    · simp only [hgo, Bool.false_eq_true, if_false]
      rw [ih (stay_state_rep_congr h)]
      by_cases ht : s2.turn = 1
      · simp only [ht, if_true, Prod.mk.injEq]
        refine ⟨?_, ?_, ?_, ?_⟩ <;>
          rw [List.map_congr_left fun c _ => by
            rw [draw_prob_congr h3 c, ih (dealer_hit_state_rep_congr h c)]]
      · simp only [ht, if_false, Prod.mk.injEq]
        refine ⟨?_, ?_, ?_, ?_⟩ <;>
          rw [List.map_congr_left fun c _ => by
            rw [draw_prob_congr h3 c, ih (player_hit_state_rep_congr h c)]]

lemma ai2_rep_congr (cfg : Config2) (pa da : List ℚ → Nat) :
    ∀ (f : Nat) {s1 s2 : GameState},
    get_game_state_representation s1 = get_game_state_representation s2 →
    get_ai_win_probability2 cfg pa da f s1 = get_ai_win_probability2 cfg pa da f s2 := by
  intro f
  induction f with
  | zero => intro s1 s2 _; rfl
  | succ f ih =>
    intro s1 s2 h
    obtain ⟨h1, h2, h3, h4⟩ := rep_eq_iff.mp h
    rw [ai2_succ, ai2_succ, is_game_over2_congr cfg h, h4, np_unique_eq_of_perm h3,
      get_features2_congr cfg h]
    by_cases hgo : (is_game_over2 cfg s2).1
    · simp [hgo]
    · simp only [hgo, Bool.false_eq_true, if_false]
      rw [ih (stay_state_rep_congr h)]
      by_cases ht : s2.turn = 1
      · simp only [ht, if_true, Prod.mk.injEq]
        refine ⟨?_, ?_, ?_⟩ <;>
          rw [List.map_congr_left fun c _ => by
            rw [draw_prob_congr h3 c, ih (dealer_hit_state_rep_congr h c)]]
      · simp only [ht, if_false, Prod.mk.injEq]
        refine ⟨?_, ?_, ?_⟩ <;>
          rw [List.map_congr_left fun c _ => by
            rw [draw_prob_congr h3 c, ih (player_hit_state_rep_congr h c)]]

/-- C3: two game states with the same canonical key (equal dealer-hand
sum, player-hand sum, sorted remaining deck and turn, as computed by
`get_game_state_representation`) are outcome-equivalent: `is_game_over`
agrees on them, and both the analytical and the policy-driven solver (for
every oracle) return identical probability tuples, in both variants — so
memoizing on the canonical key never conflates states with different
values. -/
theorem C3_canonical_key_outcome_equivalent :
    (∀ (cfg : Config1) (s1 s2 : GameState),
      get_game_state_representation s1 = get_game_state_representation s2 →
      is_game_over1 cfg s1 = is_game_over1 cfg s2 ∧
      theoretical_value1 cfg s1 = theoretical_value1 cfg s2 ∧
      ∀ agent : List ℚ → Nat, ai_value1 cfg agent s1 = ai_value1 cfg agent s2) ∧
    (∀ (cfg : Config2) (s1 s2 : GameState),
      get_game_state_representation s1 = get_game_state_representation s2 →
      is_game_over2 cfg s1 = is_game_over2 cfg s2 ∧
      theoretical_value2 cfg s1 = theoretical_value2 cfg s2 ∧
      ∀ pa da : List ℚ → Nat, ai_value2 cfg pa da s1 = ai_value2 cfg pa da s2) := by
  constructor
  · intro cfg s1 s2 h
    have hlen : s1.deck.length = s2.deck.length := (rep_eq_iff.mp h).2.2.1.length_eq
    refine ⟨is_game_over1_congr cfg h, ?_, fun agent => ?_⟩
    · simp only [theoretical_value1]
      rw [hlen]
      exact th1_rep_congr cfg _ h
    · simp only [ai_value1]
      rw [hlen]
      exact ai1_rep_congr cfg agent _ h
  · intro cfg s1 s2 h
    have hlen : s1.deck.length = s2.deck.length := (rep_eq_iff.mp h).2.2.1.length_eq
    refine ⟨is_game_over2_congr cfg h, ?_, fun pa da => ?_⟩
    · simp only [theoretical_value2]
      rw [hlen]
      exact th2_rep_congr cfg _ h
    · simp only [ai_value2]
      rw [hlen]
      exact ai2_rep_congr cfg pa da _ h

/-- Witness for C3: two concrete states with different hand compositions
and deck orders but the same canonical key get identical results. -/
theorem C3_witness :
    is_game_over1 ⟨[1, 1, 2, 2, 3], 5, 4⟩ ⟨[1, 2], [3], [1, 2], 0⟩
        = is_game_over1 ⟨[1, 1, 2, 2, 3], 5, 4⟩ ⟨[3], [1, 2], [2, 1], 0⟩ ∧
    theoretical_value1 ⟨[1, 1, 2, 2, 3], 5, 4⟩ ⟨[1, 2], [3], [1, 2], 0⟩
        = theoretical_value1 ⟨[1, 1, 2, 2, 3], 5, 4⟩ ⟨[3], [1, 2], [2, 1], 0⟩ ∧
    ai_value1 ⟨[1, 1, 2, 2, 3], 5, 4⟩ (fun _ => 0) ⟨[1, 2], [3], [1, 2], 0⟩
        = ai_value1 ⟨[1, 1, 2, 2, 3], 5, 4⟩ (fun _ => 0) ⟨[3], [1, 2], [2, 1], 0⟩ :=
  ⟨(C3_canonical_key_outcome_equivalent.1 ⟨[1, 1, 2, 2, 3], 5, 4⟩
      ⟨[1, 2], [3], [1, 2], 0⟩ ⟨[3], [1, 2], [2, 1], 0⟩ (by decide)).1,
   (C3_canonical_key_outcome_equivalent.1 ⟨[1, 1, 2, 2, 3], 5, 4⟩
      ⟨[1, 2], [3], [1, 2], 0⟩ ⟨[3], [1, 2], [2, 1], 0⟩ (by decide)).2.1,
   (C3_canonical_key_outcome_equivalent.1 ⟨[1, 1, 2, 2, 3], 5, 4⟩
      ⟨[1, 2], [3], [1, 2], 0⟩ ⟨[3], [1, 2], [2, 1], 0⟩ (by decide)).2.2 (fun _ => 0)⟩

/-! ### Claim C6: the policy-driven solver refines the analytical optimum -/

/-- The optimal-slot value of the stay branch at a player-turn state. -/
def stay_opt_value1 (cfg : Config1) (s : GameState) : ℚ :=
  (theoretical_value1 cfg (stay_state s)).1

/-- The optimal-slot value of the hit branch at a player-turn state: the
draw-probability-weighted sum over distinct remaining cards. -/
def hit_opt_value1 (cfg : Config1) (s : GameState) : ℚ :=
  ((np_unique s.deck).map fun card =>
    draw_prob s card * (theoretical_value1 cfg (player_hit_state s card)).1).sum

lemma is_game_over1_result_zero_or_one (cfg : Config1) (s : GameState) :
    (is_game_over1 cfg s).2.getD 0 = 0 ∨ (is_game_over1 cfg s).2.getD 0 = 1 := by
  unfold is_game_over1
  split_ifs <;> simp

lemma sum_count_np_unique (d : List Nat) :
    ((np_unique d).map fun c => ((d.count c : ℕ) : ℚ)).sum = (d.length : ℚ) := by
  have hperm : ((np_unique d).map fun c => ((d.count c : ℕ) : ℚ)).Perm
      (d.dedup.map fun c => ((d.count c : ℕ) : ℚ)) :=
    (np_unique_perm_dedup d).map _
  rw [hperm.sum_eq]
  rw [show (d.dedup.map fun c => ((d.count c : ℕ) : ℚ))
      = (d.dedup.map fun c => d.count c).map (fun n : ℕ => (n : ℚ)) from by
    rw [List.map_map]; rfl]
  rw [← Nat.cast_list_sum, List.sum_map_count_dedup_eq_length]

lemma sum_draw_prob_le_one (s : GameState) :
    ((np_unique s.deck).map fun c => draw_prob s c).sum ≤ 1 := by
  by_cases hd : s.deck.length = 0
  · have : s.deck = [] := List.length_eq_zero.mp hd
    simp [this, np_unique]
  · have hlen : ((s.deck.length : ℕ) : ℚ) ≠ 0 := by
      exact_mod_cast hd
    unfold draw_prob
    rw [show (fun c => ((s.deck.count c : ℕ) : ℚ) / ((s.deck.length : ℕ) : ℚ))
        = fun c => (((s.deck.length : ℕ) : ℚ))⁻¹ * ((s.deck.count c : ℕ) : ℚ) from by
      funext c; rw [div_eq_mul_inv, mul_comm]]
    rw [List.sum_map_mul_left, sum_count_np_unique]
    rw [inv_mul_cancel₀ hlen]

lemma th1_bounds (cfg : Config1) : ∀ (f : Nat) (s : GameState),
    0 ≤ (get_theoretical_win_probability1 cfg f s).1 ∧
    (get_theoretical_win_probability1 cfg f s).1 ≤ 1 ∧
    0 ≤ (get_theoretical_win_probability1 cfg f s).2 ∧
    (get_theoretical_win_probability1 cfg f s).2 ≤ 1 := by
  intro f
  induction f with
  | zero => intro s; simp [get_theoretical_win_probability1]
  | succ f ih =>
    intro s
    rw [th1_succ]
    by_cases hgo : (is_game_over1 cfg s).1
    · simp only [hgo, if_true]
      rcases is_game_over1_result_zero_or_one cfg s with h | h <;> rw [h] <;> norm_num
    · simp only [hgo, Bool.false_eq_true, if_false]
      have hsum_bounds : ∀ (hit : Nat → GameState),
          0 ≤ ((np_unique s.deck).map fun c =>
            draw_prob s c * (get_theoretical_win_probability1 cfg f (hit c)).1).sum ∧
          ((np_unique s.deck).map fun c =>
            draw_prob s c * (get_theoretical_win_probability1 cfg f (hit c)).1).sum ≤ 1 ∧
          0 ≤ ((np_unique s.deck).map fun c =>
            draw_prob s c * (get_theoretical_win_probability1 cfg f (hit c)).2).sum ∧
          ((np_unique s.deck).map fun c =>
            draw_prob s c * (get_theoretical_win_probability1 cfg f (hit c)).2).sum ≤ 1 := by
        intro hit
        have hub1 : ((np_unique s.deck).map fun c =>
              draw_prob s c * (get_theoretical_win_probability1 cfg f (hit c)).1).sum
            ≤ ((np_unique s.deck).map fun c => draw_prob s c).sum :=
          List.sum_le_sum fun c _ => by
            have hb := ih (hit c)
            have := mul_le_mul_of_nonneg_left hb.2.1 (draw_prob_nonneg s c)
            simpa using this
        have hub2 : ((np_unique s.deck).map fun c =>
              draw_prob s c * (get_theoretical_win_probability1 cfg f (hit c)).2).sum
            ≤ ((np_unique s.deck).map fun c => draw_prob s c).sum :=
          List.sum_le_sum fun c _ => by
            have hb := ih (hit c)
            have := mul_le_mul_of_nonneg_left hb.2.2.2 (draw_prob_nonneg s c)
            simpa using this
        refine ⟨?_, hub1.trans (sum_draw_prob_le_one s), ?_,
          hub2.trans (sum_draw_prob_le_one s)⟩
        · apply List.sum_nonneg
          intro x hx
          obtain ⟨c, _, rfl⟩ := List.mem_map.mp hx
          exact mul_nonneg (draw_prob_nonneg s c) (ih (hit c)).1
        · apply List.sum_nonneg
          intro x hx
          obtain ⟨c, _, rfl⟩ := List.mem_map.mp hx
          exact mul_nonneg (draw_prob_nonneg s c) (ih (hit c)).2.2.1
      by_cases h1 : s.turn = 1
      · simp only [h1, if_true]
        exact ⟨(hsum_bounds (dealer_hit_state s)).1, (hsum_bounds (dealer_hit_state s)).2.1,
          (hsum_bounds (dealer_hit_state s)).2.2.1, (hsum_bounds (dealer_hit_state s)).2.2.2⟩
      · simp only [h1, if_false]
        have hb := ih (stay_state s)
        have hh := hsum_bounds (player_hit_state s)
        refine ⟨le_max_of_le_left hb.1, max_le hb.2.1 hh.2.1, ?_, ?_⟩
        · have := hb.2.2.1
          have := hh.2.2.1
          linarith
        · have := hb.2.2.2
          have := hh.2.2.2
          linarith

lemma C6_aux (cfg : Config1) (agent : List ℚ → Nat)
    (hagree : ∀ s : GameState, s.turn = 0 → (is_game_over1 cfg s).1 = false →
      (agent (get_features1 cfg s) = 0 →
        hit_opt_value1 cfg s ≤ stay_opt_value1 cfg s) ∧
      (agent (get_features1 cfg s) ≠ 0 →
        stay_opt_value1 cfg s ≤ hit_opt_value1 cfg s)) :
    ∀ (n : Nat) (s : GameState), s.turn ≤ 1 → s.deck.length + 2 - s.turn ≤ n →
      ai_value1 cfg agent s = (theoretical_value1 cfg s).1 := by
  intro n
  induction n with
  | zero => intro s ht hn; omega
  | succ n ih =>
    intro s ht hn
    by_cases hgo : (is_game_over1 cfg s).1
    · rw [ai_value1_terminal cfg agent s hgo, theoretical_value1_terminal cfg s hgo]
    · have hgo' : (is_game_over1 cfg s).1 = false := by
        simpa using hgo
      by_cases h1 : s.turn = 1
      · rw [ai_value1_step_dealer cfg agent s h1 hgo',
          theoretical_value1_step_dealer cfg s h1 hgo']
        exact congrArg List.sum (List.map_congr_left fun c hc => by
          have hlen := erase_length_of_mem_np_unique hc
          rw [ih (dealer_hit_state s c) (by simp only [dealer_hit_state]; omega)
            (by simp only [dealer_hit_state]; omega)])
      · have h0 : s.turn = 0 := by omega
        have hag := hagree s h0 hgo'
        simp only [stay_opt_value1, hit_opt_value1] at hag
        have hstay_eq : ai_value1 cfg agent (stay_state s)
            = (theoretical_value1 cfg (stay_state s)).1 :=
          ih (stay_state s) (by simp only [stay_state]; omega)
            (by simp only [stay_state]; omega)
        have hhit_eq : ((np_unique s.deck).map fun c =>
              draw_prob s c * ai_value1 cfg agent (player_hit_state s c)).sum
            = ((np_unique s.deck).map fun c =>
              draw_prob s c * (theoretical_value1 cfg (player_hit_state s c)).1).sum :=
          congrArg List.sum (List.map_congr_left fun c hc => by
            have hlen := erase_length_of_mem_np_unique hc
            rw [ih (player_hit_state s c) (by simp only [player_hit_state]; omega)
              (by simp only [player_hit_state]; omega)])
        rw [theoretical_value1_step_player cfg s h0 hgo']
        by_cases ha : agent (get_features1 cfg s) = 0
        · rw [ai_value1_step_player_stay cfg agent s h0 hgo' ha, hstay_eq]
          exact (max_eq_left (hag.1 ha)).symm
        · rw [ai_value1_step_player_hit cfg agent s h0 hgo' ha, hhit_eq]
          exact (max_eq_right (hag.2 ha)).symm

/-- C6: if at every non-terminal player-turn state the oracle's chosen
branch agrees with the branch the max rule of the analytical solver
selects (stay only when the stay value is at least the hit value, hit
only when the hit value is at least the stay value), then the one-player
policy-driven solver equals the `optimal_win_probability` component of
the analytical solver on every game state. -/
theorem C6_policy_solver_matches_optimal :
    ∀ (cfg : Config1) (agent : List ℚ → Nat),
      (∀ s : GameState, s.turn = 0 → (is_game_over1 cfg s).1 = false →
        (agent (get_features1 cfg s) = 0 →
          hit_opt_value1 cfg s ≤ stay_opt_value1 cfg s) ∧
        (agent (get_features1 cfg s) ≠ 0 →
          stay_opt_value1 cfg s ≤ hit_opt_value1 cfg s)) →
      ∀ s : GameState, s.turn ≤ 1 →
        ai_value1 cfg agent s = (theoretical_value1 cfg s).1 := by
  intro cfg agent hagree s ht
  exact C6_aux cfg agent hagree (s.deck.length + 2) s ht (by omega)

/-! Auxiliary facts about the degenerate configuration with
`blackjack_num = 0` and `dealer_limit = 0`, where staying is always at
least as good as hitting; used to exhibit a concrete oracle that
reproduces the optimal action everywhere. -/

lemma is_game_over1_cfg0_player (s : GameState) (h0 : s.turn = 0)
    (hps : s.player_hand.sum = 0) :
    is_game_over1 ⟨[], 0, 0⟩ s = (false, none) := by
  simp [is_game_over1, h0, hps]

lemma is_game_over1_cfg0_stay (s : GameState) (h0 : s.turn = 0)
    (hps : s.player_hand.sum = 0) (hd : s.dealer_hand.sum = 0) :
    is_game_over1 ⟨[], 0, 0⟩ (stay_state s) = (true, some 0) := by
  simp [is_game_over1, stay_state, h0, hps, hd]

lemma is_game_over1_cfg0_stay_pos (s : GameState) (h0 : s.turn = 0)
    (hd : 0 < s.dealer_hand.sum) :
    is_game_over1 ⟨[], 0, 0⟩ (stay_state s) = (true, some 1) := by
  unfold is_game_over1
  rw [if_neg (by simp [stay_state]),
    if_pos (show (stay_state s).turn = 1 by simp [stay_state, h0]),
    if_pos (show (stay_state s).dealer_hand.sum > (⟨[], 0, 0⟩ : Config1).blackjack_num
      from hd)]

lemma is_game_over1_cfg0_bust (s : GameState) (h0 : s.turn = 0) (c : Nat)
    (hc : 0 < c) :
    is_game_over1 ⟨[], 0, 0⟩ (player_hit_state s c) = (true, some 0) := by
  unfold is_game_over1
  rw [if_pos (show (player_hit_state s c).turn = 0 ∧
      (player_hit_state s c).player_hand.sum > (⟨[], 0, 0⟩ : Config1).blackjack_num
    from ⟨h0, by simp [player_hit_state, List.sum_append]; omega⟩)]

lemma th1_zero_value_cfg0 : ∀ (n : Nat) (s : GameState), s.deck.length ≤ n →
    s.turn = 0 → s.player_hand.sum = 0 → s.dealer_hand.sum = 0 →
    (theoretical_value1 ⟨[], 0, 0⟩ s).1 = 0 := by
  intro n
  induction n with
  | zero =>
    intro s hlen h0 hps hd
    have hnt : (is_game_over1 ⟨[], 0, 0⟩ s).1 = false := by
      rw [is_game_over1_cfg0_player s h0 hps]
    rw [theoretical_value1_step_player _ s h0 hnt]
    have hdeck : s.deck = [] := List.length_eq_zero.mp (by omega)
    have hstay : (theoretical_value1 ⟨[], 0, 0⟩ (stay_state s)).1 = 0 := by
      rw [theoretical_value1_terminal _ _ (by rw [is_game_over1_cfg0_stay s h0 hps hd]),
        is_game_over1_cfg0_stay s h0 hps hd]
      rfl
    rw [hstay]
    simp [hdeck, np_unique]
  | succ n ih =>
    intro s hlen h0 hps hd
    have hnt : (is_game_over1 ⟨[], 0, 0⟩ s).1 = false := by
      rw [is_game_over1_cfg0_player s h0 hps]
    rw [theoretical_value1_step_player _ s h0 hnt]
    have hstay : (theoretical_value1 ⟨[], 0, 0⟩ (stay_state s)).1 = 0 := by
      rw [theoretical_value1_terminal _ _ (by rw [is_game_over1_cfg0_stay s h0 hps hd]),
        is_game_over1_cfg0_stay s h0 hps hd]
      rfl
    have hhit : ∀ c ∈ np_unique s.deck,
        draw_prob s c * (theoretical_value1 ⟨[], 0, 0⟩ (player_hit_state s c)).1 = 0 := by
      intro c hc
      have hlenc := erase_length_of_mem_np_unique hc
      by_cases hc0 : c = 0
      · subst hc0
        have : (theoretical_value1 ⟨[], 0, 0⟩ (player_hit_state s 0)).1 = 0 := by
          refine ih (player_hit_state s 0) ?_ ?_ ?_ ?_
          · simp only [player_hit_state]; omega
          · simp [player_hit_state, h0]
          · simp [player_hit_state, List.sum_append, hps]
          · simpa [player_hit_state] using hd
        rw [this, mul_zero]
      · have hterm := is_game_over1_cfg0_bust s h0 c (by omega)
        rw [theoretical_value1_terminal _ _ (by rw [hterm]), hterm]
        show draw_prob s c * (some (0 : ℚ)).getD 0 = 0
        simp
    rw [hstay, List.map_congr_left hhit]
    simp

lemma agree_stay_cfg0 : ∀ s : GameState, s.turn = 0 →
    (is_game_over1 ⟨[], 0, 0⟩ s).1 = false →
    hit_opt_value1 ⟨[], 0, 0⟩ s ≤ stay_opt_value1 ⟨[], 0, 0⟩ s := by
  intro s h0 hnt
  have hps : s.player_hand.sum = 0 := by
    by_contra hps
    have : (is_game_over1 ⟨[], 0, 0⟩ s).1 = true := by
      unfold is_game_over1
      rw [if_pos (show s.turn = 0 ∧
          s.player_hand.sum > (⟨[], 0, 0⟩ : Config1).blackjack_num
        from ⟨h0, (by omega : s.player_hand.sum > 0)⟩)]
    rw [this] at hnt
    cases hnt
  by_cases hd : s.dealer_hand.sum = 0
  · have hstay : stay_opt_value1 ⟨[], 0, 0⟩ s = 0 := by
      unfold stay_opt_value1
      rw [theoretical_value1_terminal _ _ (by rw [is_game_over1_cfg0_stay s h0 hps hd]),
        is_game_over1_cfg0_stay s h0 hps hd]
      rfl
    have hhit : hit_opt_value1 ⟨[], 0, 0⟩ s = 0 := by
      unfold hit_opt_value1
      have hterms : ∀ c ∈ np_unique s.deck,
          draw_prob s c * (theoretical_value1 ⟨[], 0, 0⟩ (player_hit_state s c)).1 = 0 := by
        intro c hc
        have hlenc := erase_length_of_mem_np_unique hc
        by_cases hc0 : c = 0
        · subst hc0
          have : (theoretical_value1 ⟨[], 0, 0⟩ (player_hit_state s 0)).1 = 0 := by
            refine th1_zero_value_cfg0 (player_hit_state s 0).deck.length
              (player_hit_state s 0) le_rfl ?_ ?_ ?_
            · simp [player_hit_state, h0]
            · simp [player_hit_state, List.sum_append, hps]
            · simpa [player_hit_state] using hd
          rw [this, mul_zero]
        · have hterm := is_game_over1_cfg0_bust s h0 c (by omega)
          rw [theoretical_value1_terminal _ _ (by rw [hterm]), hterm]
          show draw_prob s c * (some (0 : ℚ)).getD 0 = 0
          simp
      rw [List.map_congr_left hterms]
      simp
    rw [hstay, hhit]
  · have hstay : stay_opt_value1 ⟨[], 0, 0⟩ s = 1 := by
      unfold stay_opt_value1
      rw [theoretical_value1_terminal _ _
          (by rw [is_game_over1_cfg0_stay_pos s h0 (by omega)]),
        is_game_over1_cfg0_stay_pos s h0 (by omega)]
      rfl
    rw [hstay]
    have hub : hit_opt_value1 ⟨[], 0, 0⟩ s
        ≤ ((np_unique s.deck).map fun c => draw_prob s c).sum := by
      unfold hit_opt_value1
      refine List.sum_le_sum fun c _ => ?_
      have hb := th1_bounds ⟨[], 0, 0⟩ ((player_hit_state s c).deck.length + 2)
        (player_hit_state s c)
      have := mul_le_mul_of_nonneg_left hb.2.1 (draw_prob_nonneg s c)
      simpa [theoretical_value1] using this
    exact hub.trans (sum_draw_prob_le_one s)

/-- Witness for C6: the always-stay oracle is optimal in the degenerate
configuration with bust threshold 0 and dealer limit 0, and the
policy-driven solver then equals the optimal analytical value at a
concrete state. -/
theorem C6_witness :
    ai_value1 ⟨[], 0, 0⟩ (fun _ => 0) ⟨[1], [0], [0, 2], 0⟩
      = (theoretical_value1 ⟨[], 0, 0⟩ ⟨[1], [0], [0, 2], 0⟩).1 :=
  C6_policy_solver_matches_optimal ⟨[], 0, 0⟩ (fun _ => 0)
    (fun s h0 hnt => ⟨fun _ => agree_stay_cfg0 s h0 hnt, fun hne => absurd rfl hne⟩)
    ⟨[1], [0], [0, 2], 0⟩ (by decide)
